import Mathlib

/-! # Verification of the brainiac document-analysis pipeline

Shallow embedding of `src/services/analysisFramework.ts` and
`src/services/aiService.ts`. JavaScript strings are modelled as lists of
UTF-16 code units (`List Nat`); JavaScript numbers appearing in scores and
ratios are modelled as rationals. Regex-based passes are translated into
explicit scanning functions that reproduce the leftmost, greedy,
non-overlapping matching behaviour of the source patterns.
-/

namespace Brainiac

/-- Convert a Lean string literal to the list of its code points, used to
write concrete JavaScript string values. All concrete inputs used below are
ASCII, where code points and UTF-16 code units coincide. -/
def s2l (s : String) : List Nat :=
  s.data.map Char.toNat

/-- JavaScript regex `\s` / `String.prototype.trim` whitespace set:
TAB, LF, VT, FF, CR, SP, NBSP, OGHAM, U+2000–U+200A, LS, PS, NNBSP,
MMSP, IDEOGRAPHIC SPACE, BOM. -/
def isWs (c : Nat) : Bool :=
  c = 9 || c = 10 || c = 11 || c = 12 || c = 13 || c = 32 || c = 160 ||
  c = 0x1680 || (0x2000 ≤ c && c ≤ 0x200A) || c = 0x2028 || c = 0x2029 ||
  c = 0x202F || c = 0x205F || c = 0x3000 || c = 0xFEFF

/-- JavaScript regex `\w`: ASCII letters, digits and underscore. -/
def isWordChar (c : Nat) : Bool :=
  (48 ≤ c && c ≤ 57) || (65 ≤ c && c ≤ 90) || (97 ≤ c && c ≤ 122) || c = 95

/-- ASCII decimal digit. -/
def isDigit (c : Nat) : Bool :=
  48 ≤ c && c ≤ 57

/-- Hexadecimal digit, as accepted by the `[0-9A-Fa-f]` class. -/
def isHexDigit (c : Nat) : Bool :=
  (48 ≤ c && c ≤ 57) || (65 ≤ c && c ≤ 70) || (97 ≤ c && c ≤ 102)

/-- Numeric value of a hexadecimal digit code unit. -/
def hexVal (c : Nat) : Nat :=
  if 48 ≤ c && c ≤ 57 then c - 48
  else if 65 ≤ c && c ≤ 70 then c - 55
  else if 97 ≤ c && c ≤ 102 then c - 87
  else 0

/-- Control characters removed by the sanitizer's character-class pass
`[\u0001-\u0008\u000B\u000C\u000E-\u001F\u007F]`. -/
def isCtrlStrip (c : Nat) : Bool :=
  (1 ≤ c && c ≤ 8) || c = 11 || c = 12 || (14 ≤ c && c ≤ 31) || c = 127

/-- The ASCII control codepoints named by the specification:
0–8, 11, 12, 14–31, 127. -/
def isSpecCtrl (c : Nat) : Bool :=
  c ≤ 8 || c = 11 || c = 12 || (14 ≤ c && c ≤ 31) || c = 127

/-! ## Content sanitizer (`DocumentAnalysisFramework.sanitizeContent`) -/

/-- `.replace(/\u0000/g, '')`: remove every NUL code unit. -/
def removeNull (l : List Nat) : List Nat :=
  l.filter (fun c => c != 0)

/-- `.replace(/[\u0001-\u0008\u000B\u000C\u000E-\u001F\u007F]/g, '')`. -/
def removeCtrl (l : List Nat) : List Nat :=
  l.filter (fun c => !isCtrlStrip c)

/-- One step of `.replace(/\\u0000/g, '')`: delete each literal
six-character escape sequence `\u0000`, scanning left to right without
overlap. The fuel argument only forces structural recursion; it is called
with fuel equal to the list length, which each step keeps sufficient. -/
def removeEscNullF : Nat → List Nat → List Nat
  | 0, _ => []
  | _ + 1, [] => []
  | fuel + 1, c :: rest =>
    if c = 92 ∧ rest.take 5 = [117, 48, 48, 48, 48] then
      removeEscNullF fuel (rest.drop 5)
    else c :: removeEscNullF fuel rest

/-- `.replace(/\\u0000/g, '')`. -/
def removeEscNull (l : List Nat) : List Nat :=
  removeEscNullF l.length l

/-- Replacement emitted for one decoded `\uXXXX` escape: control
codepoints (0, 1–31, 127) are dropped, others become the code unit. -/
def escOut (v : Nat) : List Nat :=
  if v = 0 ∨ (1 ≤ v ∧ v ≤ 31) ∨ v = 127 then [] else [v]

/-- Attempt to read `u` followed by four hex digits at the head of the
list; on success return the decoded codepoint and the remaining input. -/
def escDecode : List Nat → Option (Nat × List Nat)
  | u :: a :: b :: d :: e :: rest2 =>
    if u = 117 && isHexDigit a && isHexDigit b && isHexDigit d && isHexDigit e then
      some (hexVal a * 4096 + hexVal b * 256 + hexVal d * 16 + hexVal e, rest2)
    else none
  | _ => none

/-- One step of `.replace(/\\u([0-9A-Fa-f]{4})/g, fn)`: decode each
literal escape sequence, scanning left to right without overlap. Fuel as
in `removeEscNullF`. -/
def replaceEscF : Nat → List Nat → List Nat
  | 0, _ => []
  | _ + 1, [] => []
  | fuel + 1, c :: rest =>
    match escDecode rest with
    | some (v, rest2) =>
      if c = 92 then escOut v ++ replaceEscF fuel rest2
      else c :: replaceEscF fuel rest
    | none => c :: replaceEscF fuel rest

/-- `.replace(/\\u([0-9A-Fa-f]{4})/g, fn)`. -/
def replaceEsc (l : List Nat) : List Nat :=
  replaceEscF l.length l

/-- `.replace(/\s+/g, ' ')`: collapse each maximal whitespace run to one
space. The boolean records whether the previous code unit was part of a
run already collapsed. -/
def collapseAux : Bool → List Nat → List Nat
  | _, [] => []
  | b, c :: rest =>
    if isWs c then
      if b then collapseAux true rest else 32 :: collapseAux true rest
    else c :: collapseAux false rest

/-- Whitespace-run collapsing pass. -/
def collapseWs (l : List Nat) : List Nat :=
  collapseAux false l

/-- Drop trailing whitespace. -/
def trimRight : List Nat → List Nat
  | [] => []
  | c :: rest =>
    let r := trimRight rest
    if r.isEmpty && isWs c then [] else c :: r

/-- `String.prototype.trim`: drop leading and trailing whitespace. -/
def trimList (l : List Nat) : List Nat :=
  trimRight (l.dropWhile isWs)

/-- `DocumentAnalysisFramework.sanitizeContent`: the empty string is falsy
and returned as-is; otherwise the five replacement passes run in source
order followed by `trim`. -/
def sanitizeContent (l : List Nat) : List Nat :=
  if l = [] then []
  else trimList (collapseWs (replaceEsc (removeEscNull (removeCtrl (removeNull l)))))

/-- `DocumentAnalysisFramework.sanitizeTitle`: sanitize, truncate to 255
code units, trim, and fall back to `'Untitled Document'` when empty. -/
def sanitizeTitle (l : List Nat) : List Nat :=
  if l = [] then s2l "Untitled Document"
  else
    let t := trimList ((sanitizeContent l).take 255)
    if t = [] then s2l "Untitled Document" else t

/-! ### Lemmas about the sanitizer passes -/

theorem mem_removeNull {l : List Nat} {x : Nat} (h : x ∈ removeNull l) :
    x ∈ l ∧ x ≠ 0 := by
  unfold removeNull at h
  rw [List.mem_filter] at h
  exact ⟨h.1, by simpa using h.2⟩

theorem mem_removeCtrl {l : List Nat} {x : Nat} (h : x ∈ removeCtrl l) :
    x ∈ l ∧ isCtrlStrip x = false := by
  unfold removeCtrl at h
  rw [List.mem_filter] at h
  exact ⟨h.1, by simpa using h.2⟩

theorem specCtrl_false {y : Nat} (h0 : y ≠ 0) (hc : isCtrlStrip y = false) :
    isSpecCtrl y = false := by
  simp only [isCtrlStrip, Bool.or_eq_false_iff, Bool.and_eq_false_iff,
    decide_eq_false_iff_not, not_le, not_and] at hc
  simp only [isSpecCtrl, Bool.or_eq_false_iff, Bool.and_eq_false_iff,
    decide_eq_false_iff_not, not_le, not_and]
  omega

theorem removeEscNullF_id (fuel : Nat) :
    ∀ l : List Nat, l.length ≤ fuel → 92 ∉ l → removeEscNullF fuel l = l := by
  induction fuel with
  | zero =>
    intro l hl _
    interval_cases hl' : l.length
    · rw [List.length_eq_zero] at hl'
      subst hl'
      rfl
  | succ n ih =>
    intro l hl h92
    cases l with
    | nil => rfl
    | cons c rest =>
      have hc : ¬(c = 92 ∧ rest.take 5 = [117, 48, 48, 48, 48]) := by
        rintro ⟨rfl, -⟩
        exact h92 (List.mem_cons_self _ _)
      simp only [removeEscNullF, if_neg hc, List.cons.injEq, true_and]
      exact ih rest (by simpa using Nat.le_of_succ_le_succ (by simpa using hl))
        (fun h => h92 (List.mem_cons_of_mem _ h))

theorem mem_removeEscNullF (fuel : Nat) :
    ∀ l : List Nat, ∀ x ∈ removeEscNullF fuel l, x ∈ l := by
  induction fuel with
  | zero => intro l x hx; simp [removeEscNullF] at hx
  | succ n ih =>
    intro l x hx
    cases l with
    | nil => simp [removeEscNullF] at hx
    | cons c rest =>
      simp only [removeEscNullF] at hx
      split at hx
      · exact List.mem_cons_of_mem _ (List.drop_subset 5 rest (ih _ x hx))
      · rcases List.mem_cons.mp hx with rfl | hx'
        · exact List.mem_cons_self _ _
        · exact List.mem_cons_of_mem _ (ih rest x hx')

theorem escOut_ctrlFree {v x : Nat} (h : x ∈ escOut v) : isSpecCtrl x = false := by
  unfold escOut at h
  split at h
  · simp at h
  · rename_i hv
    rcases List.mem_singleton.mp h with rfl
    push_neg at hv
    simp only [isSpecCtrl, Bool.or_eq_false_iff, Bool.and_eq_false_iff,
      decide_eq_false_iff_not, not_le, not_and]
    omega

theorem escDecode_some {l r2 : List Nat} {v : Nat}
    (h : escDecode l = some (v, r2)) : (∀ x ∈ r2, x ∈ l) ∧ r2.length + 5 = l.length := by
  rcases l with - | ⟨u, - | ⟨a, - | ⟨b, - | ⟨d, - | ⟨e, r⟩⟩⟩⟩⟩ <;>
    simp only [escDecode] at h
  · cases h
  · cases h
  · cases h
  · cases h
  · cases h
  · split at h
    · rcases Option.some.injEq .. ▸ h with h'
      obtain ⟨rfl, rfl⟩ : v = _ ∧ r2 = r := by
        injection h with h''
        injection h''  with h1 h2
        exact ⟨h1.symm, h2.symm⟩
      constructor
      · intro x hx
        simp [hx]
      · simp
    · cases h

theorem replaceEscF_id (fuel : Nat) :
    ∀ l : List Nat, l.length ≤ fuel → 92 ∉ l → replaceEscF fuel l = l := by
  induction fuel with
  | zero =>
    intro l hl _
    interval_cases hl' : l.length
    · rw [List.length_eq_zero] at hl'
      subst hl'
      rfl
  | succ n ih =>
    intro l hl h92
    cases l with
    | nil => rfl
    | cons c rest =>
      have hc : c ≠ 92 := by
        rintro rfl
        exact h92 (List.mem_cons_self _ _)
      have hrest : replaceEscF n rest = rest :=
        ih rest (Nat.le_of_succ_le_succ (by simpa using hl))
          (fun h => h92 (List.mem_cons_of_mem _ h))
      simp only [replaceEscF]
      cases hd : escDecode rest with
      | none => rw [hrest]
      | some p =>
        cases p with
        | mk v r2 => simp [if_neg hc, hrest]

theorem replaceEscF_ctrlFree (fuel : Nat) :
    ∀ l : List Nat, (∀ y ∈ l, isSpecCtrl y = false) →
      ∀ x ∈ replaceEscF fuel l, isSpecCtrl x = false := by
  induction fuel with
  | zero => intro l _ x hx; simp [replaceEscF] at hx
  | succ n ih =>
    intro l hl x hx
    cases l with
    | nil => simp [replaceEscF] at hx
    | cons c rest =>
      have hrest : ∀ y ∈ rest, isSpecCtrl y = false :=
        fun y hy => hl y (List.mem_cons_of_mem _ hy)
      simp only [replaceEscF] at hx
      cases hd : escDecode rest with
      | none =>
        simp only [hd] at hx
        rcases List.mem_cons.mp hx with rfl | hx'
        · exact hl x (List.mem_cons_self _ _)
        · exact ih rest hrest x hx'
      | some p =>
        cases p with
        | mk v r2 =>
          simp only [hd] at hx
          split at hx
          · rcases List.mem_append.mp hx with hesc | hx'
            · exact escOut_ctrlFree hesc
            · exact ih r2 (fun y hy => hrest y ((escDecode_some hd).1 y hy)) x hx'
          · rcases List.mem_cons.mp hx with rfl | hx'
            · exact hl x (List.mem_cons_self _ _)
            · exact ih rest hrest x hx'

/-- The relation "no two adjacent whitespace code units". -/
def wsR (a b : Nat) : Prop := isWs a = true → isWs b = false

theorem collapse_ws32 :
    ∀ (b : Bool) (l : List Nat), ∀ x ∈ collapseAux b l, isWs x = true → x = 32 := by
  intro b l
  induction l generalizing b with
  | nil => simp [collapseAux]
  | cons c rest ih =>
    intro x hx hws
    simp only [collapseAux] at hx
    split at hx
    · split at hx
      · exact ih true x hx hws
      · rcases List.mem_cons.mp hx with rfl | hx'
        · rfl
        · exact ih true x hx' hws
    · rcases List.mem_cons.mp hx with rfl | hx'
      · rename_i hc; exact absurd hws (by simp [hc])
      · exact ih false x hx' hws

theorem collapse_mem :
    ∀ (b : Bool) (l : List Nat), ∀ x ∈ collapseAux b l, x = 32 ∨ x ∈ l := by
  intro b l
  induction l generalizing b with
  | nil => simp [collapseAux]
  | cons c rest ih =>
    intro x hx
    simp only [collapseAux] at hx
    split at hx
    · split at hx
      · rcases ih true x hx with h | h
        · exact Or.inl h
        · exact Or.inr (List.mem_cons_of_mem _ h)
      · rcases List.mem_cons.mp hx with rfl | hx'
        · exact Or.inl rfl
        · rcases ih true x hx' with h | h
          · exact Or.inl h
          · exact Or.inr (List.mem_cons_of_mem _ h)
    · rcases List.mem_cons.mp hx with rfl | hx'
      · exact Or.inr (List.mem_cons_self _ _)
      · rcases ih false x hx' with h | h
        · exact Or.inl h
        · exact Or.inr (List.mem_cons_of_mem _ h)

theorem collapse_good :
    ∀ l : List Nat, List.Chain' wsR (collapseAux true l) ∧
      List.Chain' wsR (collapseAux false l) ∧
      ∀ x ∈ (collapseAux true l).head?, isWs x = false := by
  intro l
  induction l with
  | nil => exact ⟨List.chain'_nil, List.chain'_nil, by simp [collapseAux]⟩
  | cons c rest ih =>
    by_cases hc : isWs c
    · refine ⟨?_, ?_, ?_⟩
      · simpa only [collapseAux, if_pos hc] using ih.1
      · simp only [collapseAux, if_pos hc]
        exact List.chain'_cons'.mpr ⟨fun y hy => fun _ => ih.2.2 y hy, ih.1⟩
      · simpa only [collapseAux, if_pos hc] using ih.2.2
    · have hcons : List.Chain' wsR (c :: collapseAux false rest) :=
        List.chain'_cons'.mpr ⟨fun y _ => fun hws => absurd hws (by simp [hc]), ih.2.1⟩
      refine ⟨?_, ?_, ?_⟩
      · simpa only [collapseAux, if_neg hc] using hcons
      · simpa only [collapseAux, if_neg hc] using hcons
      · simp only [collapseAux, if_neg hc, List.head?_cons]
        intro x hx
        cases hx
        simpa using hc

theorem collapse_fix :
    ∀ t : List Nat, (∀ x ∈ t, isWs x = true → x = 32) → List.Chain' wsR t →
      collapseAux false t = t ∧
      ((∀ x ∈ t.head?, isWs x = false) → collapseAux true t = t) := by
  intro t
  induction t with
  | nil => exact fun _ _ => ⟨rfl, fun _ => rfl⟩
  | cons c rest ih =>
    intro h1 h2
    have h1' : ∀ x ∈ rest, isWs x = true → x = 32 :=
      fun x hx => h1 x (List.mem_cons_of_mem _ hx)
    have h2' : List.Chain' wsR rest := (List.chain'_cons'.mp h2).2
    have hhead : ∀ y ∈ rest.head?, wsR c y := (List.chain'_cons'.mp h2).1
    by_cases hc : isWs c
    · have hc32 : c = 32 := h1 c (List.mem_cons_self _ _) hc
      have htrue : collapseAux true rest = rest :=
        (ih h1' h2').2 (fun y hy => hhead y hy hc)
      constructor
      · subst hc32
        simp [collapseAux, if_pos hc, htrue]
      · intro hcontra
        have := hcontra c (by simp)
        rw [this] at hc
        cases hc
    · have hfalse : collapseAux false rest = rest := (ih h1' h2').1
      constructor
      · simp only [collapseAux, if_neg hc, hfalse]
      · intro _
        simp only [collapseAux, if_neg hc, hfalse]

theorem trimRight_mem : ∀ l : List Nat, ∀ x ∈ trimRight l, x ∈ l := by
  intro l
  induction l with
  | nil => simp [trimRight]
  | cons c rest ih =>
    intro x hx
    simp only [trimRight] at hx
    split at hx
    · simp at hx
    · rcases List.mem_cons.mp hx with rfl | hx'
      · exact List.mem_cons_self _ _
      · exact List.mem_cons_of_mem _ (ih x hx')

theorem trimRight_append : ∀ l : List Nat, ∃ s, l = trimRight l ++ s := by
  intro l
  induction l with
  | nil => exact ⟨[], rfl⟩
  | cons c rest ih =>
    obtain ⟨s, hs⟩ := ih
    simp only [trimRight]
    split
    · exact ⟨c :: rest, rfl⟩
    · exact ⟨s, by rw [List.cons_append, ← hs]⟩

theorem trimRight_head :
    ∀ l : List Nat, trimRight l = [] ∨ (trimRight l).head? = l.head? := by
  intro l
  cases l with
  | nil => exact Or.inl rfl
  | cons c rest =>
    simp only [trimRight]
    split
    · exact Or.inl rfl
    · exact Or.inr (by simp)

theorem trimRight_idem : ∀ l : List Nat, trimRight (trimRight l) = trimRight l := by
  intro l
  induction l with
  | nil => rfl
  | cons c rest ih =>
    simp only [trimRight]
    split
    · rfl
    · rename_i hcond
      simp only [trimRight, ih, if_neg hcond]

theorem dropWhile_append (p : Nat → Bool) :
    ∀ l : List Nat, ∃ q, l = q ++ l.dropWhile p := by
  intro l
  induction l with
  | nil => exact ⟨[], rfl⟩
  | cons c rest ih =>
    by_cases hc : p c
    · obtain ⟨q, hq⟩ := ih
      exact ⟨c :: q, by simp [List.dropWhile, hc, ← hq]⟩
    · exact ⟨[], by simp [List.dropWhile, hc]⟩

theorem dropWhile_head (p : Nat → Bool) :
    ∀ l : List Nat, ∀ x ∈ (l.dropWhile p).head?, p x = false := by
  intro l
  induction l with
  | nil => simp [List.dropWhile]
  | cons c rest ih =>
    by_cases hc : p c
    · simpa [List.dropWhile, hc] using ih
    · simp only [List.dropWhile, Bool.not_eq_true] at hc ⊢
      rw [hc]
      intro x hx
      cases hx
      exact hc

theorem dropWhile_eq_self (p : Nat → Bool) (l : List Nat)
    (h : ∀ x ∈ l.head?, p x = false) : l.dropWhile p = l := by
  cases l with
  | nil => rfl
  | cons c rest =>
    have := h c (by simp)
    simp [List.dropWhile, this]

theorem mem_dropWhile (p : Nat → Bool) (l : List Nat) :
    ∀ x ∈ l.dropWhile p, x ∈ l := by
  obtain ⟨q, hq⟩ := dropWhile_append p l
  intro x hx
  rw [hq]
  exact List.mem_append_right q hx

theorem removeEscNull_id {l : List Nat} (h92 : 92 ∉ l) : removeEscNull l = l :=
  removeEscNullF_id _ l le_rfl h92

theorem replaceEsc_id {l : List Nat} (h92 : 92 ∉ l) : replaceEsc l = l :=
  replaceEscF_id _ l le_rfl h92

/-- On backslash-free input the two escape-decoding passes are the
identity, so sanitization is the two control filters, whitespace
collapsing and trimming. -/
theorem sanitize_pass1 (l : List Nat) (h92 : 92 ∉ l) :
    sanitizeContent l = trimList (collapseWs (removeCtrl (removeNull l))) := by
  unfold sanitizeContent
  split
  · rename_i h
    subst h
    rfl
  · have h1 : 92 ∉ removeCtrl (removeNull l) :=
      fun h => h92 (mem_removeNull (mem_removeCtrl h).1).1
    rw [removeEscNull_id h1, replaceEsc_id h1]

/-- No codepoint from the specification's control set survives
sanitization. -/
theorem sanitize_noCtrl (l : List Nat) : ∀ x ∈ sanitizeContent l, isSpecCtrl x = false := by
  intro x hx
  unfold sanitizeContent at hx
  split at hx
  · simp at hx
  · unfold trimList collapseWs at hx
    have hx1 := mem_dropWhile isWs _ x (trimRight_mem _ x hx)
    rcases collapse_mem false _ x hx1 with rfl | hx2
    · decide
    · unfold replaceEsc at hx2
      refine replaceEscF_ctrlFree _ _ ?_ x hx2
      intro y hy
      have hy1 := mem_removeEscNullF _ _ y hy
      have h2 := mem_removeCtrl hy1
      exact specCtrl_false (mem_removeNull h2.1).2 h2.2

/-- Sanitization is idempotent on inputs that contain no backslash. -/
theorem sanitize_idem (l : List Nat) (h92 : 92 ∉ l) :
    sanitizeContent (sanitizeContent l) = sanitizeContent l := by
  have hp1 := sanitize_pass1 l h92
  set s0 := removeCtrl (removeNull l) with hs0
  set C := collapseAux false s0 with hC
  set D := C.dropWhile isWs with hD
  have ht : sanitizeContent l = trimRight D := by
    rw [hp1]; rfl
  have h92s0 : 92 ∉ s0 := fun h => h92 (mem_removeNull (mem_removeCtrl h).1).1
  set t := trimRight D with htt
  have t_mem : ∀ x ∈ t, x = 32 ∨ x ∈ s0 := fun x hx =>
    collapse_mem false s0 x (mem_dropWhile isWs _ x (trimRight_mem _ x hx))
  have t_ne0 : ∀ x ∈ t, x ≠ 0 := by
    intro x hx
    rcases t_mem x hx with rfl | hx'
    · decide
    · exact (mem_removeNull (mem_removeCtrl hx').1).2
  have t_ctrl : ∀ x ∈ t, isCtrlStrip x = false := by
    intro x hx
    rcases t_mem x hx with rfl | hx'
    · decide
    · exact (mem_removeCtrl hx').2
  have t_92 : 92 ∉ t := by
    intro h
    rcases t_mem 92 h with h' | h'
    · cases h'
    · exact h92s0 h'
  have t_ws32 : ∀ x ∈ t, isWs x = true → x = 32 := fun x hx =>
    collapse_ws32 false s0 x (mem_dropWhile isWs _ x (trimRight_mem _ x hx))
  have t_chain : List.Chain' wsR t := by
    have hCchain : List.Chain' wsR C := (collapse_good s0).2.1
    obtain ⟨q, hq⟩ := dropWhile_append isWs C
    have hDchain : List.Chain' wsR D := (List.chain'_append.mp (hq ▸ hCchain)).2.1
    obtain ⟨s, hsap⟩ := trimRight_append D
    exact (List.chain'_append.mp (hsap ▸ hDchain)).1
  have t_head : ∀ x ∈ t.head?, isWs x = false := by
    rcases trimRight_head D with h | h
    · rw [htt, h]
      simp
    · rw [htt, h]
      exact dropWhile_head isWs C
  rw [ht]
  by_cases hte : t = []
  · rw [hte]
    rfl
  · unfold sanitizeContent
    rw [if_neg hte]
    have e1 : removeNull t = t :=
      List.filter_eq_self.mpr (fun a ha => by simpa using t_ne0 a ha)
    have e2 : removeCtrl t = t :=
      List.filter_eq_self.mpr (fun a ha => by simp [t_ctrl a ha])
    rw [e1, e2, removeEscNull_id t_92, replaceEsc_id t_92]
    unfold collapseWs
    rw [(collapse_fix t t_ws32 t_chain).1]
    unfold trimList
    rw [dropWhile_eq_self isWs t t_head, htt]
    exact trimRight_idem D

/-- C1: sanitizeContent is total and never lets a control codepoint from
{0–8, 11, 12, 14–31, 127} into its output; idempotence
`sanitizeContent (sanitizeContent s) = sanitizeContent s` holds for every
string containing no backslash (code unit 92), which is the amended form
of the claim — full idempotence fails, see the counterexample. -/
theorem C1_sanitize_props (l : List Nat) :
    (∀ x ∈ sanitizeContent l, isSpecCtrl x = false) ∧
    (92 ∉ l → sanitizeContent (sanitizeContent l) = sanitizeContent l) :=
  ⟨sanitize_noCtrl l, sanitize_idem l⟩

/-- C1 counterexample: the literal eleven-character string `\u0041`
sanitizes to `A` (the escape decodes to a backslash, synthesizing a
new escape), and a second sanitization decodes that to `A`, so
sanitization is not idempotent as originally claimed. -/
theorem C1_counterexample :
    sanitizeContent (sanitizeContent (s2l "\\u005Cu0041")) ≠
      sanitizeContent (s2l "\\u005Cu0041") := by
  decide

/-- C1 witness: the amended idempotence applied at the concrete
backslash-free input `"hello  world"`. -/
theorem C1_witness :
    sanitizeContent (sanitizeContent (s2l "hello  world")) =
      sanitizeContent (s2l "hello  world") :=
  (C1_sanitize_props (s2l "hello  world")).2 (by decide)

example : sanitizeContent (s2l "  hello\t\nworld ") = s2l "hello world" := by decide
example : sanitizeContent (s2l "a\u0001b") = s2l "ab" := by decide
example : sanitizeContent (s2l "a\\u0041b") = s2l "aAb" := by decide
example : sanitizeContent (s2l "\\u005Cu0041") = s2l "\\u0041" := by decide
example : sanitizeContent (sanitizeContent (s2l "\\u005Cu0041")) = s2l "A" := by decide

/-! ## Splitting, tokenizing and counting helpers shared by the signal
extractors -/

/-- Number of maximal runs of code units satisfying `p`; the boolean says
whether the scanner is currently inside such a run. -/
def countRunsAux (p : Nat → Bool) : Bool → List Nat → Nat
  | _, [] => 0
  | inRun, c :: rest =>
    if p c then
      if inRun then countRunsAux p true rest else 1 + countRunsAux p true rest
    else countRunsAux p false rest

/-- Number of maximal runs of code units satisfying `p`. -/
def countRuns (p : Nat → Bool) (l : List Nat) : Nat :=
  countRunsAux p false l

/-- The `[.!?]` sentence-separator class. -/
def isSentSep (c : Nat) : Bool :=
  c = 46 || c = 33 || c = 63

/-- `content.split(/[.!?]+/).length`: JavaScript split yields one piece
per gap, i.e. the number of maximal separator runs plus one (the empty
string splits to `['']`). -/
def sentenceCount (l : List Nat) : Nat :=
  countRuns isSentSep l + 1

/-- `DocumentAnalysisFramework.countWords`:
`text.trim().split(/\s+/).length`. After trimming, the piece count is the
number of internal whitespace runs plus one. -/
def countWords (l : List Nat) : Nat :=
  countRuns isWs (trimList l) + 1

/-- `String.prototype.toLowerCase`, restricted to the ASCII range (all
concrete inputs below are ASCII, and no property proved here depends on
the non-ASCII case mappings). -/
def jsToLower (l : List Nat) : List Nat :=
  l.map (fun c => if 65 ≤ c && c ≤ 90 then c + 32 else c)

/-- `str.match(/p+/g) || []` for a one-character class `p`: the list of
maximal runs satisfying `p`, in order. The accumulator holds the reversed
current run. -/
def tokensAux (p : Nat → Bool) : List Nat → List Nat → List (List Nat)
  | [], acc => if acc.isEmpty then [] else [acc.reverse]
  | c :: rest, acc =>
    if p c then tokensAux p rest (c :: acc)
    else if acc.isEmpty then tokensAux p rest []
    else acc.reverse :: tokensAux p rest []

/-- `str.match(/\b\w+\b/g) || []` equals the list of maximal `\w` runs. -/
def jsMatchRuns (p : Nat → Bool) (l : List Nat) : List (List Nat) :=
  tokensAux p l []

/-- The `[aeiouy]` vowel class used for syllable counting. -/
def isVowel (c : Nat) : Bool :=
  c = 97 || c = 101 || c = 105 || c = 111 || c = 117 || c = 121

/-- `DocumentAnalysisFramework.countSyllables`: per lowercased word,
`max 1` of the number of maximal vowel-group runs; summed. -/
def countSyllables (l : List Nat) : Nat :=
  ((jsMatchRuns isWordChar (jsToLower l)).map
    (fun w => max 1 (countRuns isVowel w))).sum

/-- `Math.max` on the rational model. -/
def jsMax (a b : ℚ) : ℚ :=
  if a ≤ b then b else a

/-- `Math.min` on the rational model. -/
def jsMin (a b : ℚ) : ℚ :=
  if a ≤ b then a else b

/-- `DocumentAnalysisFramework.calculateReadabilityScore`: Flesch-style
score clamped to [0,100]; arithmetic modelled over ℚ. -/
def calculateReadabilityScore (l : List Nat) : ℚ :=
  if sentenceCount l = 0 ∨ countWords l = 0 then 0
  else
    jsMax 0 (jsMin 100
      ((206835 : ℚ)/1000 -
        ((1015 : ℚ)/1000) * ((countWords l : ℚ) / (sentenceCount l : ℚ)) -
        ((846 : ℚ)/10) * ((countSyllables l : ℚ) / (countWords l : ℚ))))

theorem jsMax_le {a b c : ℚ} (ha : a ≤ c) (hb : b ≤ c) : jsMax a b ≤ c := by
  unfold jsMax
  split <;> assumption

theorem le_jsMax_left (a b : ℚ) : a ≤ jsMax a b := by
  unfold jsMax
  split
  · assumption
  · exact le_refl a

theorem jsMin_le_left (a b : ℚ) : jsMin a b ≤ a := by
  unfold jsMin
  split
  · exact le_refl a
  · rename_i h
    exact le_of_not_le h

example : sentenceCount (s2l "One. Two! Three?") = 4 := by decide
example : countWords (s2l " a  b c ") = 3 := by decide
example : countSyllables (s2l "hello world") = 3 := by decide

/-- C3 (amended): for every text the readability score lies in [0,100];
the `sentences === 0 || words === 0` guard is unreachable because
JavaScript `split` always yields at least one piece, so both counts are
at least 1; the empty text therefore scores 100 rather than 0. -/
theorem C3_readability_props :
    (∀ l : List Nat,
      0 ≤ calculateReadabilityScore l ∧ calculateReadabilityScore l ≤ 100 ∧
      1 ≤ sentenceCount l ∧ 1 ≤ countWords l) ∧
    calculateReadabilityScore (s2l "") = 100 := by
  constructor
  · intro l
    refine ⟨?_, ?_, by simp [sentenceCount], by simp [countWords]⟩
    · unfold calculateReadabilityScore
      split
      · norm_num
      · exact le_jsMax_left 0 _
    · unfold calculateReadabilityScore
      split
      · norm_num
      · exact jsMax_le (by norm_num) (le_trans (jsMin_le_left 100 _) (le_refl 100))
  · have h1 : sentenceCount (s2l "") = 1 := by decide
    have h2 : countWords (s2l "") = 1 := by decide
    have h3 : countSyllables (s2l "") = 0 := by decide
    unfold calculateReadabilityScore
    rw [h1, h2, h3]
    norm_num [jsMax, jsMin]

/-! ## Entity extraction (`DocumentAnalysisFramework.extractEntities`)

The three source regexes are translated into explicit scanners that
reproduce leftmost, greedy, non-overlapping matching including the
word-boundary (`\b`) assertions: a boundary holds where exactly one of
the two adjacent positions carries a `\w` code unit (string edges count
as non-word). -/

/-- One extracted entity. -/
structure EntityM where
  text : List Nat
  etype : String
  confidence : ℚ
  context : List Nat

/-- Whether `w` starts with `pat`. -/
def startsList : List Nat → List Nat → Bool
  | _, [] => true
  | [], _ :: _ => false
  | a :: as, b :: bs => a == b && startsList as bs

/-- Greedy options for `\d{1,2}`: the two-digit take first, then the
one-digit take, each with the remaining input. -/
def d12 : List Nat → List (List Nat × List Nat)
  | a :: b :: rest =>
    if isDigit a && isDigit b then [([a, b], rest), ([a], b :: rest)]
    else if isDigit a then [([a], b :: rest)] else []
  | [a] => if isDigit a then [([a], [])] else []
  | [] => []

/-- The `[\/\-]` separator class of the date regex. -/
def isDateSep (c : Nat) : Bool :=
  c = 47 || c = 45

/-- Exactly `k` digits from the head of the input. -/
def dTake : Nat → List Nat → Option (List Nat × List Nat)
  | 0, l => some ([], l)
  | _ + 1, [] => none
  | k + 1, c :: rest =>
    if isDigit c then (dTake k rest).map (fun p => (c :: p.1, p.2)) else none

/-- `\b` looking right after a word character: holds at end of input or
before a non-word code unit. -/
def boundaryAfterWord (l : List Nat) : Bool :=
  match l with
  | [] => true
  | c :: _ => !isWordChar c

/-- `\d{2,4}\b`, greedy with backtracking: try 4, 3, then 2 digits, each
followed by a boundary. -/
def dTakeBounded : List Nat → List Nat → Option (List Nat × List Nat)
  | [], _ => none
  | k :: ks, l =>
    match dTake k l with
    | some p => if boundaryAfterWord p.2 then some p else dTakeBounded ks l
    | none => dTakeBounded ks l

/-- Attempt the date regex `\b\d{1,2}[\/\-]\d{1,2}[\/\-]\d{2,4}\b` at the
current position; `prevW` says whether the previous code unit was a word
character (the leading `\b` then fails, since the pattern starts with a
digit). -/
def dateMatchAt (prevW : Bool) (l : List Nat) : Option (List Nat × List Nat) :=
  if prevW then none
  else
    (d12 l).findSome? fun p1 =>
      match p1.2 with
      | s1 :: r1 =>
        if isDateSep s1 then
          (d12 r1).findSome? fun p2 =>
            match p2.2 with
            | s2 :: r2 =>
              if isDateSep s2 then
                (dTakeBounded [4, 3, 2] r2).map fun p3 =>
                  (p1.1 ++ s1 :: p2.1 ++ s2 :: p3.1, p3.2)
              else none
            | [] => none
        else none
      | [] => none

/-- The whole-input scan for the date regex: try a match at each
position, consume matches without overlap, track whether the previous
code unit is a word character. Fuel decreases once per step and is
initialized to the input length. -/
def scanDates : Nat → Bool → List Nat → List (List Nat)
  | 0, _, _ => []
  | _ + 1, _, [] => []
  | fuel + 1, prevW, c :: rest =>
    match dateMatchAt prevW (c :: rest) with
    | some (m, r) => m :: scanDates fuel true r
    | none => scanDates fuel (isWordChar c) rest

/-- `\d+` greedy: the maximal leading digit run (at least one). -/
def digits1 (l : List Nat) : Option (List Nat × List Nat) :=
  let ds := l.takeWhile isDigit
  if ds.isEmpty then none else some (ds, l.drop ds.length)

/-- The trailing `\b` of the percentage regex sits after `%`, a non-word
character: it holds only when the next code unit is a word character. -/
def pctBoundary (l : List Nat) : Bool :=
  match l with
  | [] => false
  | c :: _ => isWordChar c

/-- Attempt `\b\d+(?:\.\d+)?%\b` at the current position. The inner `\d+`
never needs digit-level backtracking: a shorter take leaves a digit where
`.` or `%` is required. -/
def pctMatchAt (prevW : Bool) (l : List Nat) : Option (List Nat × List Nat) :=
  if prevW then none
  else
    match digits1 l with
    | none => none
    | some (ds, r) =>
      let withFrac : Option (List Nat × List Nat) :=
        match r with
        | 46 :: r' =>
          match digits1 r' with
          | some (fs, r'') =>
            match r'' with
            | 37 :: r3 =>
              if pctBoundary r3 then some (ds ++ 46 :: fs ++ [37], r3) else none
            | _ => none
          | none => none
        | _ => none
      match withFrac with
      | some res => some res
      | none =>
        match r with
        | 37 :: r3 => if pctBoundary r3 then some (ds ++ [37], r3) else none
        | _ => none

/-- Scan for the percentage regex. After a match the previous code unit
is `%`, a non-word character. -/
def scanPcts : Nat → Bool → List Nat → List (List Nat)
  | 0, _, _ => []
  | _ + 1, _, [] => []
  | fuel + 1, prevW, c :: rest =>
    match pctMatchAt prevW (c :: rest) with
    | some (m, r) => m :: scanPcts fuel false r
    | none => scanPcts fuel (isWordChar c) rest

/-- `(?:,\d{3})*` greedy: consume comma-plus-three-digit groups while
they match. -/
def commaGroups : Nat → List Nat → (List Nat × List Nat)
  | 0, l => ([], l)
  | fuel + 1, l =>
    match l with
    | 44 :: a :: b :: c :: r =>
      if isDigit a && isDigit b && isDigit c then
        let p := commaGroups fuel r
        (44 :: a :: b :: c :: p.1, p.2)
      else ([], l)
    | _ => ([], l)

/-- `(?:\.\d{2})?`: an optional dot followed by exactly two digits. -/
def moneyFrac : List Nat → (List Nat × List Nat)
  | 46 :: a :: b :: r =>
    if isDigit a && isDigit b then ([46, a, b], r) else ([], 46 :: a :: b :: r)
  | l => ([], l)

/-- Attempt `\$\d+(?:,\d{3})*(?:\.\d{2})?` at the current position; the
pattern carries no boundary assertions. -/
def moneyMatchAt (l : List Nat) : Option (List Nat × List Nat) :=
  match l with
  | 36 :: r =>
    match digits1 r with
    | some (ds, r1) =>
      let g := commaGroups r1.length r1
      let f := moneyFrac g.2
      some (36 :: (ds ++ g.1 ++ f.1), f.2)
    | none => none
  | _ => none

/-- Scan for the money regex. -/
def scanMoney : Nat → List Nat → List (List Nat)
  | 0, _ => []
  | _ + 1, [] => []
  | fuel + 1, c :: rest =>
    match moneyMatchAt (c :: rest) with
    | some (m, r) => m :: scanMoney fuel r
    | none => scanMoney fuel rest

/-- `String.prototype.indexOf` for a substring: first index where `pat`
starts in `l`, if any. -/
def indexOfSub : List Nat → List Nat → Option Nat
  | [], pat => if pat.isEmpty then some 0 else none
  | c :: rest, pat =>
    if startsList (c :: rest) pat then some 0
    else (indexOfSub rest pat).map (· + 1)

/-- `DocumentAnalysisFramework.getContext`: the substring from
`max 0 (index - 50)` to `min length (index + entity.length + 50)`;
empty when the entity does not occur. -/
def getContext (content entity : List Nat) : List Nat :=
  match indexOfSub content entity with
  | none => []
  | some i =>
    (content.take (Nat.min content.length (i + entity.length + 50))).drop (i - 50)

/-- `DocumentAnalysisFramework.extractEntities`: dates, then percentages,
then money amounts, with their fixed confidences and contexts. -/
def extractEntities (content : List Nat) : List EntityM :=
  ((scanDates content.length false content).map fun d =>
    { text := d, etype := "date", confidence := (8 : ℚ)/10,
      context := getContext content d }) ++
  ((scanPcts content.length false content).map fun p =>
    { text := p, etype := "percentage", confidence := (9 : ℚ)/10,
      context := getContext content p }) ++
  ((scanMoney content.length content).map fun m =>
    { text := m, etype := "money", confidence := (9 : ℚ)/10,
      context := getContext content m })

/-- The C6 scenario document. -/
def c6doc : List Nat :=
  s2l "Revenue grew 12.5% to $1,250.00 on 03/14/2024"

example : scanDates c6doc.length false c6doc = [s2l "03/14/2024"] := by decide
example : scanMoney c6doc.length c6doc = [s2l "$1,250.00"] := by decide
example : scanPcts c6doc.length false c6doc = [] := by decide
example : scanPcts (s2l "12.5%x").length false (s2l "12.5%x") = [s2l "12.5%"] := by
  decide

/-- C6: evaluation of the entity extractor at the claim's input. The
percentage regex `\b\d+(?:\.\d+)?%\b` ends with a word-boundary after
`%`; since `%` is not a word character, that boundary only holds when a
word character immediately follows, which never happens here (a space
follows `12.5%`), so no percentage entity is produced. Dates and money
behave as claimed, each with the full string as its ±50-character
context. -/
theorem C6_entities_eval :
    (extractEntities c6doc).map (fun e => (e.text, e.etype, e.context)) =
      [(s2l "03/14/2024", "date", c6doc), (s2l "$1,250.00", "money", c6doc)] ∧
    (extractEntities c6doc).map EntityM.confidence = [(8 : ℚ)/10, (9 : ℚ)/10] ∧
    scanPcts c6doc.length false c6doc = [] := by
  refine ⟨by decide, ?_, by decide⟩
  rfl

/-! ## Sentiment analysis (`DocumentAnalysisFramework.analyzeSentiment`) -/

/-- `str.split(/p+/)` for a one-character class `p`: JavaScript split
semantics, including an empty piece before a leading separator run and
after a trailing one. The boolean records whether the scanner is inside a
separator run; the accumulator holds the reversed current piece. -/
def splitByAux (p : Nat → Bool) : Bool → List Nat → List Nat → List (List Nat)
  | _, [], acc => [acc.reverse]
  | inSep, c :: rest, acc =>
    if p c then
      if inSep then splitByAux p true rest acc
      else acc.reverse :: splitByAux p true rest []
    else splitByAux p false rest (c :: acc)

/-- `str.split(/p+/)`. -/
def splitBy (p : Nat → Bool) (l : List Nat) : List (List Nat) :=
  splitByAux p false l []

/-- `str.split(/\s+/)`. -/
def jsSplitWs (l : List Nat) : List (List Nat) :=
  splitBy isWs l

example : jsSplitWs (s2l "a  b") = [s2l "a", s2l "b"] := by decide
example : jsSplitWs (s2l " a ") = [s2l "", s2l "a", s2l ""] := by decide
example : jsSplitWs (s2l "") = [s2l ""] := by decide

/-- `String.prototype.includes`: whether `pat` occurs as a contiguous
substring of `w`. -/
def hasSub : List Nat → List Nat → Bool
  | [], pat => pat.isEmpty
  | c :: rest, pat => startsList (c :: rest) pat || hasSub rest pat

example : hasSub (s2l "risks.") (s2l "risk") = true := by decide
example : hasSub (s2l "result") (s2l "risk") = false := by decide

/-- The fixed positive lexicon of `analyzeSentiment`. -/
def positiveWords : List (List Nat) :=
  [s2l "good", s2l "great", s2l "excellent", s2l "positive", s2l "success",
   s2l "benefit", s2l "advantage"]

/-- The fixed negative lexicon of `analyzeSentiment`. -/
def negativeWords : List (List Nat) :=
  [s2l "bad", s2l "poor", s2l "negative", s2l "problem", s2l "issue",
   s2l "risk", s2l "disadvantage"]

/-- Number of whitespace-split tokens containing a positive-lexicon
substring. -/
def positiveCount (l : List Nat) : Nat :=
  ((jsSplitWs (jsToLower l)).filter
    (fun w => positiveWords.any (fun pw => hasSub w pw))).length

/-- Number of whitespace-split tokens containing a negative-lexicon
substring. -/
def negativeCount (l : List Nat) : Nat :=
  ((jsSplitWs (jsToLower l)).filter
    (fun w => negativeWords.any (fun nw => hasSub w nw))).length

/-- `positiveRatio`: fraction of the positive+negative match count,
defaulting to 1/2 when both counts are zero. -/
def positiveRatio (l : List Nat) : ℚ :=
  if 0 < positiveCount l + negativeCount l then
    (positiveCount l : ℚ) / ((positiveCount l + negativeCount l : ℕ) : ℚ)
  else 1/2

/-- `negativeRatio`, symmetric to `positiveRatio`. -/
def negativeRatio (l : List Nat) : ℚ :=
  if 0 < positiveCount l + negativeCount l then
    (negativeCount l : ℚ) / ((positiveCount l + negativeCount l : ℕ) : ℚ)
  else 1/2

/-- `neutralRatio = 1 - positiveRatio - negativeRatio`. -/
def neutralRatio (l : List Nat) : ℚ :=
  1 - positiveRatio l - negativeRatio l

/-- The overall label: `>0.6` positive/negative, both `>0.3` mixed, else
neutral. -/
def overallSentiment (l : List Nat) : String :=
  if positiveRatio l > 3/5 then "positive"
  else if negativeRatio l > 3/5 then "negative"
  else if positiveRatio l > 3/10 ∧ negativeRatio l > 3/10 then "mixed"
  else "neutral"

/-- The record returned by `analyzeSentiment`; the nested
`sentiment_distribution` object is flattened into the three ratio
fields. -/
structure SentimentM where
  overall_sentiment : String
  confidence : ℚ
  emotional_tone : List String
  positive : ℚ
  negative : ℚ
  neutral : ℚ

/-- `DocumentAnalysisFramework.analyzeSentiment`. -/
def analyzeSentiment (l : List Nat) : SentimentM :=
  { overall_sentiment := overallSentiment l
    confidence := jsMax (positiveRatio l) (jsMax (negativeRatio l) (neutralRatio l))
    emotional_tone :=
      if overallSentiment l = "positive" then ["optimistic"]
      else if overallSentiment l = "negative" then ["concerned"]
      else ["neutral"]
    positive := positiveRatio l
    negative := negativeRatio l
    neutral := neutralRatio l }

/-- The two sentiment ratios always sum to exactly one. -/
theorem ratio_sum (l : List Nat) : positiveRatio l + negativeRatio l = 1 := by
  unfold positiveRatio negativeRatio
  by_cases h : 0 < positiveCount l + negativeCount l
  · rw [if_pos h, if_pos h, div_add_div_same, ← Nat.cast_add]
    exact div_self (Nat.cast_ne_zero.mpr (Nat.pos_iff_ne_zero.mp h))
  · rw [if_neg h, if_neg h]
    norm_num

/-- C4: the three sentiment fractions sum exactly to 1; positive and
negative are fractions of the positive+negative match count only, each
defaulting to 1/2 when that count is zero. -/
theorem C4_sentiment_sum (l : List Nat) :
    (analyzeSentiment l).positive + (analyzeSentiment l).negative +
      (analyzeSentiment l).neutral = 1 ∧
    (positiveCount l + negativeCount l = 0 →
      (analyzeSentiment l).positive = 1/2 ∧ (analyzeSentiment l).negative = 1/2) ∧
    (0 < positiveCount l + negativeCount l →
      (analyzeSentiment l).positive =
        (positiveCount l : ℚ) / ((positiveCount l + negativeCount l : ℕ) : ℚ) ∧
      (analyzeSentiment l).negative =
        (negativeCount l : ℚ) / ((positiveCount l + negativeCount l : ℕ) : ℚ)) := by
  refine ⟨?_, ?_, ?_⟩
  · show positiveRatio l + negativeRatio l + neutralRatio l = 1
    unfold neutralRatio
    ring
  · intro h
    constructor
    · show positiveRatio l = 1/2
      unfold positiveRatio
      rw [if_neg (by omega)]
    · show negativeRatio l = 1/2
      unfold negativeRatio
      rw [if_neg (by omega)]
  · intro h
    constructor
    · show positiveRatio l = _
      unfold positiveRatio
      rw [if_pos h]
    · show negativeRatio l = _
      unfold negativeRatio
      rw [if_pos h]

/-- C4 witness: the defaulting branch at the concrete input `"nothing"`,
whose match counts are both zero. -/
theorem C4_witness :
    (analyzeSentiment (s2l "nothing")).positive = 1/2 ∧
      (analyzeSentiment (s2l "nothing")).negative = 1/2 :=
  (C4_sentiment_sum (s2l "nothing")).2.1 (by decide)

/-! ### IEEE-754 binary64 model of the sentiment arithmetic

The program evaluates `1 - positive - negative` in JavaScript's binary64
floating point. A non-negative finite double is modelled as a pair
`(m, e)` of naturals standing for the value `m / 2 ^ e`; the operations
below produce the correctly rounded (round-to-nearest, ties-to-even,
53-bit significand) quotient and difference for the value ranges that
occur here (no overflow, underflow or subnormals). -/

/-- Bit length of a natural, fuel-bounded (fuel 128 covers every value
arising below). -/
def bitsF : Nat → Nat → Nat
  | 0, _ => 0
  | fuel + 1, n => if n = 0 then 0 else bitsF fuel (n / 2) + 1

/-- Bit length with fixed fuel. -/
def bits64 (n : Nat) : Nat := bitsF 128 n

/-- Round the value `m / 2 ^ e` to a 53-bit significand,
round-to-nearest with ties to even. -/
def roundTo53 (m e : Nat) : Nat × Nat :=
  if bits64 m ≤ 53 then (m, e)
  else
    (2 ^ (bits64 m - 53) : Nat) |> fun p =>
      (m / p, m % p) |> fun qr =>
        if p < 2 * qr.2 ∨ (2 * qr.2 = p ∧ qr.1 % 2 = 1) then
          (if qr.1 + 1 = 2 ^ 53 then (2 ^ 52, e - (bits64 m - 53) - 1)
           else (qr.1 + 1, e - (bits64 m - 53)))
        else (qr.1, e - (bits64 m - 53))

/-- The smallest exponent `e` with `b * 2 ^ 52 ≤ a * 2 ^ e`, searched
upward with fuel. -/
def findE : Nat → Nat → Nat → Nat → Nat
  | 0, _, _, e => e
  | fuel + 1, a, b, e =>
    if b * 2 ^ 52 ≤ a * 2 ^ e then e else findE fuel a b (e + 1)

/-- Correctly rounded binary64 quotient `a / b` of two positive
naturals: scale `a` so the quotient has exactly 53 bits, divide with
remainder, and round to nearest with ties to even. -/
def divFl (a b : Nat) : Nat × Nat :=
  if a = 0 ∨ b = 0 then (0, 0)
  else
    (findE (bits64 b + 60) a b 0) |> fun e =>
      (a * 2 ^ e / b, a * 2 ^ e % b) |> fun qr =>
        if b < 2 * qr.2 ∨ (2 * qr.2 = b ∧ qr.1 % 2 = 1) then
          (if qr.1 + 1 = 2 ^ 53 then (2 ^ 52, e - 1) else (qr.1 + 1, e))
        else (qr.1, e)

/-- Correctly rounded binary64 difference `x - y` for model values with
`x ≥ y`: align to the larger exponent (exact), subtract exactly, then
round to 53 bits. -/
def subFl (x y : Nat × Nat) : Nat × Nat :=
  (if x.2 ≤ y.2 then y.2 else x.2) |> fun e =>
    roundTo53 (x.1 * 2 ^ (e - x.2) - y.1 * 2 ^ (e - y.2)) e

/-- The binary64 evaluation of `1 - p/(p+n) - n/(p+n)` on match counts
`p` and `n`, exactly as the source computes the neutral fraction
(`1 - positiveRatio - negativeRatio` left-to-right); when both counts
are zero the ratios are the exact constants 0.5 and the result is
exactly 0. -/
def neutralFlCore (p n : Nat) : Nat × Nat :=
  if p + n = 0 then (0, 0)
  else subFl (subFl (2 ^ 52, 52) (divFl p (p + n))) (divFl n (p + n))

/-- The rational value of a model double. -/
def flVal (x : Nat × Nat) : ℚ := (x.1 : ℚ) / (((2 ^ x.2 : ℕ) : ℕ) : ℚ)

/-- The neutral fraction as the program's binary64 arithmetic produces
it, as an exact rational. -/
def neutralRatioFl (p n : Nat) : ℚ := flVal (neutralFlCore p n)

example : divFl 1 3 = (6004799503160661, 54) := by decide
example : divFl 2 3 = (6004799503160661, 53) := by decide
example : neutralFlCore 1 2 = (1, 53) := by decide
example : neutralFlCore 1 1 = (0, 53) := by decide

/-- C9 counterexample: on the document `"good bad poor"` the match
counts are 1 and 2, and the program's binary64 evaluation of
`1 - 1/3 - 2/3` is `2 ^ (-53)` (about `1.11e-16`), not 0: the neutral
fraction of the returned distribution is not always exactly 0. -/
theorem C9_counterexample :
    neutralRatioFl (positiveCount (s2l "good bad poor"))
      (negativeCount (s2l "good bad poor")) ≠ 0 := by
  have hp : positiveCount (s2l "good bad poor") = 1 := by decide
  have hn : negativeCount (s2l "good bad poor") = 2 := by decide
  rw [hp, hn]
  have hcore : neutralFlCore 1 2 = (1, 53) := by decide
  unfold neutralRatioFl
  rw [hcore]
  unfold flVal
  norm_num

/-- C9 (amended): the positive and negative fractions always sum to 1
(in exact arithmetic), the overall label is never `"neutral"`, and
whenever neither ratio exceeds 0.6 the label is `"mixed"`; the neutral
field, computed by the program as `1 - positive - negative` in binary64,
is zero only up to a rounding residue on the order of `2 ^ (-53)` and
can be nonzero. -/
theorem C9_never_neutral (l : List Nat) :
    (analyzeSentiment l).positive + (analyzeSentiment l).negative = 1 ∧
    (analyzeSentiment l).overall_sentiment ≠ "neutral" ∧
    (¬ positiveRatio l > 3/5 → ¬ negativeRatio l > 3/5 →
      (analyzeSentiment l).overall_sentiment = "mixed") := by
  have hsum := ratio_sum l
  have hmixed : ¬ positiveRatio l > 3/5 → ¬ negativeRatio l > 3/5 →
      overallSentiment l = "mixed" := by
    intro hp hn
    unfold overallSentiment
    rw [if_neg hp, if_neg hn, if_pos ⟨by linarith, by linarith⟩]
  refine ⟨hsum, ?_, hmixed⟩
  show overallSentiment l ≠ "neutral"
  by_cases hp : positiveRatio l > 3/5
  · unfold overallSentiment
    rw [if_pos hp]
    decide
  · by_cases hn : negativeRatio l > 3/5
    · unfold overallSentiment
      rw [if_neg hp, if_pos hn]
      decide
    · rw [hmixed hp hn]
      decide

/-- C9 witness: a balanced input lands in the `"mixed"` branch. -/
theorem C9_witness :
    (analyzeSentiment (s2l "good bad")).overall_sentiment = "mixed" :=
  (C9_never_neutral (s2l "good bad")).2.2
    (by
      have hp : positiveCount (s2l "good bad") = 1 := by decide
      have hn : negativeCount (s2l "good bad") = 1 := by decide
      unfold positiveRatio
      rw [hp, hn]
      norm_num)
    (by
      have hp : positiveCount (s2l "good bad") = 1 := by decide
      have hn : negativeCount (s2l "good bad") = 1 := by decide
      unfold negativeRatio
      rw [hp, hn]
      norm_num)

/-- The C7 scenario document. -/
def c7doc : List Nat :=
  s2l "The project was a great success with excellent results. However, there were some risks."

/-- C7 counterexample: the scenario document is not classified as
`"mixed"`: it has three positive matches (great, success, excellent) and
one negative match (risks.), so the positive ratio 3/4 exceeds 0.6. -/
theorem C7_counterexample :
    (analyzeSentiment c7doc).overall_sentiment ≠ "mixed" := by
  have hp : positiveCount c7doc = 3 := by decide
  have hn : negativeCount c7doc = 1 := by decide
  show overallSentiment c7doc ≠ "mixed"
  unfold overallSentiment
  rw [if_pos (by unfold positiveRatio; rw [hp, hn]; norm_num)]
  decide

/-- C7 (amended): the scenario document is classified `"positive"`, with
match counts 3 (positive lexicon) and 1 (negative lexicon). -/
theorem C7_overall_positive :
    (analyzeSentiment c7doc).overall_sentiment = "positive" ∧
      positiveCount c7doc = 3 ∧ negativeCount c7doc = 1 := by
  have hp : positiveCount c7doc = 3 := by decide
  have hn : negativeCount c7doc = 1 := by decide
  refine ⟨?_, hp, hn⟩
  show overallSentiment c7doc = "positive"
  unfold overallSentiment
  rw [if_pos (by unfold positiveRatio; rw [hp, hn]; norm_num)]

/-! ## Response normalization (`AIService.analyzeDocument` /
`AIService.extractSection`) -/

/-- The record returned by `aiService.analyzeDocument`. -/
structure AIAnalysisResultM where
  summary : List Nat
  insights : List Nat
  recommendations : List Nat
  technical : List Nat
  fullReport : List Nat

/-- Case-insensitive comparison of two code units, folding the ASCII
uppercase range (matching the regex's `i` flag on the ASCII patterns
used). -/
def lowerEq (a b : Nat) : Bool :=
  (if 65 ≤ a && a ≤ 90 then a + 32 else a) ==
    (if 65 ≤ b && b ≤ 90 then b + 32 else b)

/-- Case-insensitive prefix test. -/
def startsCI : List Nat → List Nat → Bool
  | _, [] => true
  | [], _ :: _ => false
  | a :: as, b :: bs => lowerEq a b && startsCI as bs

/-- Attempt the pattern `"<section>"\s*:\s*"([^"]*)"` at the current
position and return the captured group: opening quote, the section name
case-insensitively, closing quote, optional whitespace around a colon,
then a quoted value running to the next quote, which must exist. -/
def sectionAt (pat l : List Nat) : Option (List Nat) :=
  match l with
  | c0 :: r =>
    if c0 = 34 ∧ startsCI r pat then
      match r.drop pat.length with
      | c1 :: r2 =>
        if c1 = 34 then
          match r2.dropWhile isWs with
          | c2 :: r4 =>
            if c2 = 58 then
              match r4.dropWhile isWs with
              | c3 :: r6 =>
                if c3 = 34 then
                  match r6.drop (r6.takeWhile (fun c => c != 34)).length with
                  | c4 :: _ =>
                    if c4 = 34 then some (r6.takeWhile (fun c => c != 34))
                    else none
                  | [] => none
                else none
              | [] => none
            else none
          | [] => none
        else none
      | [] => none
    else none
  | [] => none

/-- Scan of `text.match(regex)`: the leftmost position where the section
pattern matches, fuel initialized to the input length. -/
def extractSectionF (pat : List Nat) : Nat → List Nat → Option (List Nat)
  | 0, _ => none
  | fuel + 1, l =>
    match sectionAt pat l with
    | some v => some v
    | none =>
      match l with
      | [] => none
      | _ :: rest => extractSectionF pat fuel rest

/-- `AIService.extractSection`. -/
def extractSection (l pat : List Nat) : Option (List Nat) :=
  extractSectionF pat (l.length + 1) l

example : extractSection (s2l "xx \"Summary\" : \"All good\" yy") (s2l "summary") =
    some (s2l "All good") := by decide
example : extractSection (s2l "no fields here") (s2l "summary") = none := by decide

/-- The parsed-JSON field set; `none` on a field models an absent
(`null`/`undefined`) value. -/
structure ParsedFields where
  summary : Option (List Nat)
  insights : Option (List Nat)
  recommendations : Option (List Nat)
  technical : Option (List Nat)
  fullReport : Option (List Nat)

/-- JavaScript's `a || b` on an optional string: the fallback `b` when
`a` is absent (`null`/`undefined`) or the empty string (both falsy),
otherwise `a` itself. -/
def jsOrElse (v : Option (List Nat)) (d : List Nat) : List Nat :=
  match v with
  | some s => if s.isEmpty then d else s
  | none => d

/-- The free-text fallback branch of `aiService.analyzeDocument`'s
normalization (the `catch` of `JSON.parse`); each `||` fallback also
fires on an empty-string capture. -/
def normalizeFreeText (response : List Nat) : AIAnalysisResultM :=
  { summary :=
      jsOrElse (extractSection response (s2l "summary"))
        (s2l "Analysis completed successfully")
    insights := jsOrElse (extractSection response (s2l "insights")) (response.take 500)
    recommendations :=
      jsOrElse (extractSection response (s2l "recommendations"))
        (s2l "See full report for recommendations")
    technical :=
      jsOrElse (extractSection response (s2l "technical"))
        (s2l "Technical analysis included in full report")
    fullReport := response }

/-- The normalization step of `aiService.analyzeDocument`. The outcome of
the platform's `JSON.parse` (external to this repository) is passed in:
`some p` is a successful parse with `p`'s string fields (`none` for an
absent one), `none` models the parse throwing. -/
def normalizeResponse (parsed : Option ParsedFields) (response : List Nat) :
    AIAnalysisResultM :=
  match parsed with
  | some p =>
    { summary := jsOrElse p.summary (s2l "No summary available")
      insights := jsOrElse p.insights (s2l "No insights available")
      recommendations := jsOrElse p.recommendations (s2l "No recommendations available")
      technical := jsOrElse p.technical (s2l "No technical details available")
      fullReport := jsOrElse p.fullReport response }
  | none => normalizeFreeText response

theorem sectionAt_no_quote {pat l v : List Nat} (h : sectionAt pat l = some v) :
    ∀ x ∈ v, x ≠ 34 := by
  intro x hx
  unfold sectionAt at h
  repeat' split at h
  all_goals cases h
  simpa using List.mem_takeWhile_imp hx

theorem extractSectionF_no_quote (pat : List Nat) :
    ∀ (fuel : Nat) (l v : List Nat), extractSectionF pat fuel l = some v →
      ∀ x ∈ v, x ≠ 34 := by
  intro fuel
  induction fuel with
  | zero => intro l v h; cases h
  | succ n ih =>
    intro l v h
    simp only [extractSectionF] at h
    cases hs : sectionAt pat l with
    | some w =>
      rw [hs] at h
      exact (Option.some.inj h) ▸ sectionAt_no_quote hs
    | none =>
      rw [hs] at h
      cases l with
      | nil => cases h
      | cons c rest => exact ih rest v h

example : (normalizeResponse none (s2l "x \"summary\": \"\" y")).summary =
    s2l "Analysis completed successfully" := by decide

/-- C8: on a response that fails JSON parsing, normalization is total and
returns a fully populated record: the raw text is kept as the full
report, and each field is either the regex-extracted `"key": "value"`
capture — when it is non-empty; it never contains a quote — or its
fallback, taken both when no match exists and when the capture is the
empty string (falsy under `||`): the constant placeholder for
summary/recommendations/technical and the 500-unit prefix of the raw
text for insights. -/
theorem C8_normalize_fallback (response : List Nat) :
    (normalizeResponse none response).fullReport = response ∧
    (∀ v, extractSection response (s2l "summary") = some v → v ≠ [] →
      (normalizeResponse none response).summary = v ∧ ∀ x ∈ v, x ≠ 34) ∧
    (extractSection response (s2l "summary") = none ∨
        extractSection response (s2l "summary") = some [] →
      (normalizeResponse none response).summary = s2l "Analysis completed successfully") ∧
    (∀ v, extractSection response (s2l "insights") = some v → v ≠ [] →
      (normalizeResponse none response).insights = v) ∧
    (extractSection response (s2l "insights") = none ∨
        extractSection response (s2l "insights") = some [] →
      (normalizeResponse none response).insights = response.take 500) ∧
    (extractSection response (s2l "recommendations") = none ∨
        extractSection response (s2l "recommendations") = some [] →
      (normalizeResponse none response).recommendations =
        s2l "See full report for recommendations") ∧
    (extractSection response (s2l "technical") = none ∨
        extractSection response (s2l "technical") = some [] →
      (normalizeResponse none response).technical =
        s2l "Technical analysis included in full report") := by
  refine ⟨rfl, ?_, ?_, ?_, ?_, ?_, ?_⟩
  · intro v hv hne
    constructor
    · show jsOrElse (extractSection response (s2l "summary")) _ = _
      rw [hv]
      simp [jsOrElse, List.isEmpty_iff, hne]
    · exact extractSectionF_no_quote (s2l "summary") _ response v hv
  · intro h
    show jsOrElse (extractSection response (s2l "summary")) _ = _
    rcases h with h | h <;> rw [h] <;> rfl
  · intro v hv hne
    show jsOrElse (extractSection response (s2l "insights")) _ = _
    rw [hv]
    simp [jsOrElse, List.isEmpty_iff, hne]
  · intro h
    show jsOrElse (extractSection response (s2l "insights")) _ = _
    rcases h with h | h <;> rw [h] <;> rfl
  · intro h
    show jsOrElse (extractSection response (s2l "recommendations")) _ = _
    rcases h with h | h <;> rw [h] <;> rfl
  · intro h
    show jsOrElse (extractSection response (s2l "technical")) _ = _
    rcases h with h | h <;> rw [h] <;> rfl

/-- C8 witness: the fallback normalization at a concrete non-JSON
response carrying one recognizable (non-empty) field. -/
theorem C8_witness :
    (normalizeResponse none (s2l "report \"summary\": \"fine\" end")).summary =
        s2l "fine" ∧
      ∀ x ∈ s2l "fine", x ≠ 34 :=
  (C8_normalize_fallback (s2l "report \"summary\": \"fine\" end")).2.1
    (s2l "fine") (by decide) (by decide)

/-! ## Topic extraction (`DocumentAnalysisFramework.extractTopics`) -/

/-- One topic record. -/
structure TopicM where
  topic : List Nat
  relevance : ℚ
  keywords : List (List Nat)
  frequency : Nat

/-- Increment the count of `w` in the association list, or append it with
count 1: JavaScript object property update, string keys kept in
first-insertion order. -/
def bumpWord : List (List Nat × Nat) → List Nat → List (List Nat × Nat)
  | [], w => [(w, 1)]
  | (k, n) :: rest, w =>
    if k = w then (k, n + 1) :: rest else (k, n) :: bumpWord rest w

/-- The `wordCount` object's property table in insertion (first-seen)
order; reading the object back out goes through `jsEntries` below, which
applies JavaScript's integer-like-key reordering. -/
def wordCounts (l : List Nat) : List (List Nat × Nat) :=
  (jsMatchRuns isWordChar (jsToLower l)).foldl
    (fun acc w => if 3 < w.length then bumpWord acc w else acc) []

/-- Numeric value of a digit string. -/
def digitsVal (w : List Nat) : Nat :=
  w.foldl (fun acc c => acc * 10 + (c - 48)) 0

/-- Whether a key string is a canonical array index in the ECMAScript
sense: all digits, no leading zero (except `"0"` itself), and numeric
value below 2^32 − 1. Such keys enumerate before string keys. -/
def isArrayIndexKey (w : List Nat) : Bool :=
  !w.isEmpty && w.all isDigit && (w == [48] || !(w.headD 0 == 48)) &&
    digitsVal w < 4294967295

/-- Ascending numeric order on array-index keys. -/
def numLe (x y : List Nat × Nat) : Prop :=
  digitsVal x.1 ≤ digitsVal y.1

instance : DecidableRel numLe :=
  fun x y => inferInstanceAs (Decidable (digitsVal x.1 ≤ digitsVal y.1))

instance : IsTotal (List Nat × Nat) numLe :=
  ⟨fun a b => (Nat.le_total (digitsVal a.1) (digitsVal b.1)).elim Or.inl Or.inr⟩

instance : IsTrans (List Nat × Nat) numLe :=
  ⟨fun _ _ _ h1 h2 => Nat.le_trans h1 h2⟩

/-- `Object.entries` enumeration order: integer-like (array-index) keys
first, in ascending numeric order, then the remaining string keys in
insertion order. -/
def jsEntries (entries : List (List Nat × Nat)) : List (List Nat × Nat) :=
  List.insertionSort numLe (entries.filter (fun e => isArrayIndexKey e.1)) ++
    entries.filter (fun e => !isArrayIndexKey e.1)

/-- Comparator `([,a],[,b]) => b - a`: descending by count. -/
def freqGe (x y : List Nat × Nat) : Prop :=
  y.2 ≤ x.2

instance : DecidableRel freqGe :=
  fun x y => inferInstanceAs (Decidable (y.2 ≤ x.2))

instance : IsTotal (List Nat × Nat) freqGe :=
  ⟨fun a b => (Nat.le_total b.2 a.2).elim Or.inl Or.inr⟩

instance : IsTrans (List Nat × Nat) freqGe :=
  ⟨fun _ _ _ h1 h2 => Nat.le_trans h2 h1⟩

/-- `Array.prototype.sort` with comparator `b - a`: a stable descending
sort, modelled by insertion sort with a non-strict comparison so that an
earlier element is inserted before equal-count later ones. -/
def sortEntries (l : List (List Nat × Nat)) : List (List Nat × Nat) :=
  List.insertionSort freqGe l

/-- `DocumentAnalysisFramework.extractTopics`: the entries of the
`wordCount` object in JavaScript enumeration order, stably sorted
descending by count, top 10, with relevance over the total token count. -/
def extractTopics (l : List Nat) : List TopicM :=
  ((sortEntries (jsEntries (wordCounts l))).take 10).map
    (fun e =>
      { topic := e.1
        relevance := (e.2 : ℚ) / (((jsMatchRuns isWordChar (jsToLower l)).length : ℕ) : ℚ)
        keywords := [e.1]
        frequency := e.2 })

/-- Members of the enumeration come from the underlying table. -/
theorem mem_jsEntries {lst : List (List Nat × Nat)} {e : List Nat × Nat}
    (h : e ∈ jsEntries lst) : e ∈ lst := by
  rcases List.mem_append.mp h with h' | h'
  · exact (List.mem_filter.mp
      ((List.perm_insertionSort numLe _).mem_iff.mp h')).1
  · exact (List.mem_filter.mp h').1

theorem filter_of_filter_imp (p q : List Nat × Nat → Bool)
    (himp : ∀ a, p a = true → q a = true) :
    ∀ l : List (List Nat × Nat), (l.filter q).filter p = l.filter p := by
  intro l
  induction l with
  | nil => rfl
  | cons c rest ih =>
    by_cases hq : q c
    · by_cases hp : p c
      · simp [List.filter_cons, hq, hp, ih]
      · simp [List.filter_cons, hq, hp, ih]
    · have hp : ¬ p c = true := fun h => hq (himp c h)
      simp [List.filter_cons, hq, hp, ih]

theorem bumpWord_mem :
    ∀ (acc : List (List Nat × Nat)) (w : List Nat) (e : List Nat × Nat),
      e ∈ bumpWord acc w → e ∈ acc ∨ e.1 = w := by
  intro acc
  induction acc with
  | nil =>
    intro w e he
    simp only [bumpWord, List.mem_singleton] at he
    exact Or.inr (by rw [he])
  | cons p rest ih =>
    intro w e he
    cases p with
    | mk k n =>
      simp only [bumpWord] at he
      split at he
      · rcases List.mem_cons.mp he with rfl | h'
        · rename_i hk
          exact Or.inr hk
        · exact Or.inl (List.mem_cons_of_mem _ h')
      · rcases List.mem_cons.mp he with rfl | h'
        · exact Or.inl (List.mem_cons_self _ _)
        · rcases ih w e h' with h | h
          · exact Or.inl (List.mem_cons_of_mem _ h)
          · exact Or.inr h

theorem wordCounts_long :
    ∀ l : List Nat, ∀ e ∈ wordCounts l, 3 < e.1.length := by
  intro l
  unfold wordCounts
  generalize jsMatchRuns isWordChar (jsToLower l) = toks
  have key : ∀ (toks : List (List Nat)) (acc : List (List Nat × Nat)),
      (∀ e ∈ acc, 3 < e.1.length) →
      ∀ e ∈ toks.foldl (fun acc w => if 3 < w.length then bumpWord acc w else acc) acc,
        3 < e.1.length := by
    intro toks
    induction toks with
    | nil => intro acc hacc e he; exact hacc e he
    | cons w rest ih =>
      intro acc hacc e he
      simp only [List.foldl_cons] at he
      refine ih _ ?_ e he
      intro e' he'
      split at he'
      · rcases bumpWord_mem acc w e' he' with h | h
        · exact hacc e' h
        · rename_i hw
          rw [h]
          exact hw
      · exact hacc e' he'
  exact key toks [] (by simp)

theorem filter_orderedInsert_eq (c : Nat) (a : List Nat × Nat)
    (ha : a.2 = c) :
    ∀ l : List (List Nat × Nat),
      (List.orderedInsert freqGe a l).filter (fun e => e.2 == c) =
        a :: l.filter (fun e => e.2 == c) := by
  intro l
  induction l with
  | nil => simp [List.orderedInsert, ha]
  | cons b rest ih =>
    by_cases hr : freqGe a b
    · simp [List.orderedInsert, hr, ha]
    · have hb : ¬ b.2 = c := by
        unfold freqGe at hr
        omega
      simp only [List.orderedInsert, if_neg hr, List.filter_cons]
      rw [ih]
      simp [hb]

theorem filter_orderedInsert_ne (c : Nat) (a : List Nat × Nat)
    (ha : ¬ a.2 = c) :
    ∀ l : List (List Nat × Nat),
      (List.orderedInsert freqGe a l).filter (fun e => e.2 == c) =
        l.filter (fun e => e.2 == c) := by
  intro l
  induction l with
  | nil => simp [List.orderedInsert, ha]
  | cons b rest ih =>
    by_cases hr : freqGe a b
    · simp [List.orderedInsert, hr, ha]
    · simp only [List.orderedInsert, if_neg hr, List.filter_cons]
      rw [ih]

/-- Stability of the sort: within each frequency class the order of
entries (hence the first-seen order of words) is preserved. -/
theorem sortEntries_stable (c : Nat) :
    ∀ l : List (List Nat × Nat),
      (sortEntries l).filter (fun e => e.2 == c) =
        l.filter (fun e => e.2 == c) := by
  intro l
  induction l with
  | nil => rfl
  | cons a rest ih =>
    show (List.orderedInsert freqGe a (List.insertionSort freqGe rest)).filter _ = _
    unfold sortEntries at ih
    by_cases ha : a.2 = c
    · rw [filter_orderedInsert_eq c a ha, ih]
      simp [List.filter_cons, ha]
    · rw [filter_orderedInsert_ne c a ha, ih]
      simp [List.filter_cons, ha]

/-- The C5 scenario document. -/
def c5doc : List Nat :=
  s2l "cat cat dog dog dog bird"

/-- The single topic extracted from the C5 scenario document. -/
def birdTopic : TopicM :=
  { topic := s2l "bird"
    relevance := ((1 : ℕ) : ℚ) / ((6 : ℕ) : ℚ)
    keywords := [s2l "bird"]
    frequency := 1 }

example : extractTopics c5doc = [birdTopic] := rfl

example : (extractTopics (s2l "9999 1111 9999 1111")).map (fun t => (t.topic, t.frequency)) =
    [(s2l "1111", 2), (s2l "9999", 2)] := by decide

/-- Every non-array-index entry of the enumeration, per frequency class,
appears in the first-seen order of the underlying table. -/
theorem jsEntries_nonNum_filter (c : Nat) (lst : List (List Nat × Nat)) :
    (jsEntries lst).filter (fun e => !isArrayIndexKey e.1 && e.2 == c) =
      lst.filter (fun e => !isArrayIndexKey e.1 && e.2 == c) := by
  unfold jsEntries
  rw [List.filter_append]
  have hA : (List.insertionSort numLe
      (lst.filter (fun e => isArrayIndexKey e.1))).filter
        (fun e => !isArrayIndexKey e.1 && e.2 == c) = [] := by
    rw [List.filter_eq_nil_iff]
    intro a ha
    have := (List.mem_filter.mp ((List.perm_insertionSort numLe _).mem_iff.mp ha)).2
    simp [this]
  rw [hA, List.nil_append]
  exact filter_of_filter_imp _ _ (fun a h => by
    rcases Bool.and_eq_true .. ▸ h with ⟨h1, -⟩
    exact h1) lst

/-- C5 (amended): extractTopics keeps only tokens of length strictly
greater than 3, sorts descending by frequency with ties keeping the
order of JavaScript's `Object.entries` enumeration — array-index-like
tokens (such as "2024") ascending numerically first, then the remaining
tokens in first-seen order — keeps at most 10 topics, and sets relevance
to frequency over the total token count; on "cat cat dog dog dog bird"
the only topic is bird with frequency 1 and relevance 1/6, because cat
and dog have length 3 and are discarded. Stability is stated per
frequency class: the sort preserves enumeration order, and restricted to
non-numeric tokens that order is the table's first-seen order. -/
theorem C5_topics_props :
    ((extractTopics c5doc).map (fun t => (t.topic, t.frequency)) = [(s2l "bird", 1)] ∧
      ∀ t ∈ extractTopics c5doc, t.relevance = 1/6) ∧
    (∀ l : List Nat,
      (extractTopics l).length ≤ 10 ∧
      List.Sorted (fun a b : TopicM => b.frequency ≤ a.frequency) (extractTopics l) ∧
      (∀ t ∈ extractTopics l, 3 < t.topic.length ∧
        t.relevance =
          (t.frequency : ℚ) / (((jsMatchRuns isWordChar (jsToLower l)).length : ℕ) : ℚ)) ∧
      (∀ c : Nat, (sortEntries (jsEntries (wordCounts l))).filter (fun e => e.2 == c) =
        (jsEntries (wordCounts l)).filter (fun e => e.2 == c)) ∧
      (∀ c : Nat, (sortEntries (jsEntries (wordCounts l))).filter
          (fun e => !isArrayIndexKey e.1 && e.2 == c) =
        (wordCounts l).filter (fun e => !isArrayIndexKey e.1 && e.2 == c))) := by
  constructor
  · constructor
    · decide
    · intro t ht
      rw [show extractTopics c5doc = [birdTopic] from rfl, List.mem_singleton] at ht
      rw [ht]
      show ((1 : ℕ) : ℚ) / ((6 : ℕ) : ℚ) = 1/6
      norm_num
  · intro l
    refine ⟨?_, ?_, ?_, fun c => sortEntries_stable c (jsEntries (wordCounts l)), ?_⟩
    · unfold extractTopics
      rw [List.length_map]
      exact le_trans (List.length_take_le 10 _) (le_refl 10)
    · unfold extractTopics
      rw [List.Sorted, List.pairwise_map]
      exact List.Pairwise.sublist (List.take_sublist 10 _)
        (List.sorted_insertionSort freqGe (jsEntries (wordCounts l)))
    · intro t ht
      unfold extractTopics at ht
      rw [List.mem_map] at ht
      obtain ⟨e, he, rfl⟩ := ht
      have hmem : e ∈ wordCounts l :=
        mem_jsEntries ((List.perm_insertionSort freqGe _).mem_iff.mp
          (List.take_subset 10 _ he))
      exact ⟨wordCounts_long l e hmem, rfl⟩
    · intro c
      rw [show (fun e : List Nat × Nat => !isArrayIndexKey e.1 && e.2 == c) =
          (fun e : List Nat × Nat =>
            (fun e : List Nat × Nat => !isArrayIndexKey e.1) e &&
              (fun e : List Nat × Nat => e.2 == c) e) from rfl]
      rw [← List.filter_filter, ← List.filter_filter]
      rw [sortEntries_stable c (jsEntries (wordCounts l))]
      rw [List.filter_filter, List.filter_filter]
      exact jsEntries_nonNum_filter c (wordCounts l)

/-- C5 counterexample: the topics of "cat cat dog dog dog bird" are not
dog(3), cat(2), bird(1) as claimed — cat and dog are filtered out. -/
theorem C5_counterexample :
    (extractTopics c5doc).map (fun t => (t.topic, t.frequency)) ≠
      [(s2l "dog", 3), (s2l "cat", 2), (s2l "bird", 1)] := by
  decide

/-- C5 witness: the general topic properties applied at the concrete
scenario document and its single extracted topic. -/
theorem C5_witness :
    3 < birdTopic.topic.length ∧
      birdTopic.relevance =
        (birdTopic.frequency : ℚ) /
          (((jsMatchRuns isWordChar (jsToLower c5doc)).length : ℕ) : ℚ) :=
  ((C5_topics_props.2 c5doc).2.2.1 birdTopic
    (show birdTopic ∈ [birdTopic] from List.mem_singleton.mpr rfl))

/-- C3 counterexample: the claim says the empty text scores 0, but the
code computes 206.835 − 1.015·(1/1) − 84.6·(0/1) = 205.82, clamped
to 100. -/
theorem C3_counterexample : calculateReadabilityScore (s2l "") ≠ 0 := by
  have h1 : sentenceCount (s2l "") = 1 := by decide
  have h2 : countWords (s2l "") = 1 := by decide
  have h3 : countSyllables (s2l "") = 0 := by decide
  unfold calculateReadabilityScore
  rw [h1, h2, h3]
  norm_num [jsMax, jsMin]

/-! ## Document preprocessing (`DocumentAnalysisFramework.preprocessDocument`
and the per-file-type cleaners) -/

/-- The supported file types. -/
inductive FileTypeM
  | pdf | txt | md | docx | csv | json

/-- `([a-z])([A-Z])` → `'$1 $2'`: insert a space between a lowercase and
an uppercase letter; scanning resumes after each match. Fuel-driven, one
unit per consumed code unit. -/
def camelSpaceF : Nat → List Nat → List Nat
  | 0, _ => []
  | _ + 1, [] => []
  | fuel + 1, a :: rest =>
    match rest with
    | b :: r2 =>
      if (97 ≤ a && a ≤ 122) && (65 ≤ b && b ≤ 90) then
        a :: 32 :: b :: camelSpaceF fuel r2
      else a :: camelSpaceF fuel rest
    | [] => [a]

/-- `DocumentAnalysisFramework.cleanPdfText`: form feeds to newlines,
camel-case spacing, whitespace collapse, trim. -/
def cleanPdfText (l : List Nat) : List Nat :=
  trimList (collapseWs
    (camelSpaceF (l.map (fun c => if c = 12 then 10 else c)).length
      (l.map (fun c => if c = 12 then 10 else c))))

/-- Try `#{1,6}\s+` at the current position with the greedy hash counts
in backtracking order; on success return the input after the consumed
hashes and whitespace run. -/
def hashTry (l : List Nat) : List Nat → Option (List Nat)
  | [] => none
  | k :: ks =>
    if (decide (l.take k = List.replicate k 35)) && isWs ((l.drop k).headD 0) then
      some ((l.drop k).dropWhile isWs)
    else hashTry l ks

/-- `.replace(/#{1,6}\s+/g, '')`. -/
def stripHeadersF : Nat → List Nat → List Nat
  | 0, _ => []
  | _ + 1, [] => []
  | fuel + 1, c :: rest =>
    match hashTry (c :: rest) [6, 5, 4, 3, 2, 1] with
    | some r => stripHeadersF fuel r
    | none => c :: stripHeadersF fuel rest

/-- JavaScript line terminators, which `.` does not match. -/
def isLineTerm (c : Nat) : Bool :=
  c = 10 || c = 13 || c = 0x2028 || c = 0x2029

/-- Find the leftmost double-delimiter `dd` (for `(.*?)\*\*`-style
non-greedy capture): returns the inner text and the input after the
closing pair; fails at a line terminator or end of input. -/
def findDelim2 (d : Nat) : Nat → List Nat → Option (List Nat × List Nat)
  | 0, _ => none
  | _ + 1, [] => none
  | fuel + 1, a :: rest =>
    match rest with
    | b :: r2 =>
      if a = d ∧ b = d then some ([], r2)
      else if isLineTerm a then none
      else (findDelim2 d fuel rest).map (fun p => (a :: p.1, p.2))
    | [] => none

/-- `.replace(/\*\*(.*?)\*\*/g, '$1')` and its double-delimiter kin. -/
def replacePair2 (d : Nat) : Nat → List Nat → List Nat
  | 0, _ => []
  | _ + 1, [] => []
  | fuel + 1, a :: rest =>
    match rest with
    | b :: r2 =>
      if a = d ∧ b = d then
        match findDelim2 d r2.length r2 with
        | some p => p.1 ++ replacePair2 d fuel p.2
        | none => a :: replacePair2 d fuel rest
      else a :: replacePair2 d fuel rest
    | [] => [a]

/-- Find the leftmost single delimiter `d` for a non-greedy capture;
fails at a line terminator or end of input. -/
def findDelim1 (d : Nat) : Nat → List Nat → Option (List Nat × List Nat)
  | 0, _ => none
  | _ + 1, [] => none
  | fuel + 1, a :: rest =>
    if a = d then some ([], rest)
    else if isLineTerm a then none
    else (findDelim1 d fuel rest).map (fun p => (a :: p.1, p.2))

/-- `.replace(/\*(.*?)\*/g, '$1')` and `.replace(/`(.*?)`/g, '$1')`. -/
def replacePair1 (d : Nat) : Nat → List Nat → List Nat
  | 0, _ => []
  | _ + 1, [] => []
  | fuel + 1, c :: rest =>
    if c = d then
      match findDelim1 d rest.length rest with
      | some p => p.1 ++ replacePair1 d fuel p.2
      | none => c :: replacePair1 d fuel rest
    else c :: replacePair1 d fuel rest

/-- Find the leftmost triple backtick; `[\s\S]*?` admits every code
unit. -/
def findTriple : Nat → List Nat → Option (List Nat)
  | 0, _ => none
  | _ + 1, [] => none
  | fuel + 1, a :: rest =>
    match rest with
    | b :: c :: r =>
      if a = 96 ∧ b = 96 ∧ c = 96 then some r
      else findTriple fuel rest
    | _ => none

/-- `.replace(/```[\s\S]*?```/g, '')`. -/
def stripCodeBlocks : Nat → List Nat → List Nat
  | 0, _ => []
  | _ + 1, [] => []
  | fuel + 1, a :: rest =>
    match rest with
    | b :: c :: r =>
      if a = 96 ∧ b = 96 ∧ c = 96 then
        match findTriple r.length r with
        | some r2 => stripCodeBlocks fuel r2
        | none => a :: stripCodeBlocks fuel rest
      else a :: stripCodeBlocks fuel rest
    | _ => a :: stripCodeBlocks fuel rest

/-- Try `\[([^\]]+)\]\([^)]+\)` at the current position: link text and
the input after the closing parenthesis. -/
def linkAt (l : List Nat) : Option (List Nat × List Nat) :=
  match l with
  | 91 :: r =>
    let txt := r.takeWhile (fun c => c != 93)
    if txt.isEmpty then none
    else
      match r.drop txt.length with
      | 93 :: 40 :: r2 =>
        let url := r2.takeWhile (fun c => c != 41)
        if url.isEmpty then none
        else
          match r2.drop url.length with
          | 41 :: r3 => some (txt, r3)
          | _ => none
      | _ => none
  | _ => none

/-- `.replace(/\[([^\]]+)\]\([^)]+\)/g, '$1')`. -/
def stripLinks : Nat → List Nat → List Nat
  | 0, _ => []
  | _ + 1, [] => []
  | fuel + 1, c :: rest =>
    match linkAt (c :: rest) with
    | some p => p.1 ++ stripLinks fuel p.2
    | none => c :: stripLinks fuel rest

/-- `DocumentAnalysisFramework.cleanMarkdown`: the six replacement passes
in source order (headers, bold, italic, inline code, code blocks, links)
followed by trim. -/
def cleanMarkdown (l : List Nat) : List Nat :=
  let s1 := stripHeadersF l.length l
  let s2 := replacePair2 42 s1.length s1
  let s3 := replacePair1 42 s2.length s2
  let s4 := replacePair1 96 s3.length s3
  let s5 := stripCodeBlocks s4.length s4
  let s6 := stripLinks s5.length s5
  trimList s6

/-- Decimal rendering of a number interpolated into a template layer. -/
def natToDigits (n : Nat) : List Nat :=
  s2l (toString n)

/-- Enumerated `Row ${index + 1}: ${row}\n` lines. -/
def rowsTextAux : Nat → List (List Nat) → List Nat
  | _, [] => []
  | i, r :: rest =>
    s2l "Row " ++ natToDigits i ++ s2l ": " ++ r ++ s2l "\n" ++ rowsTextAux (i + 1) rest

/-- `DocumentAnalysisFramework.processCsvContent`. -/
def processCsvContent (l : List Nat) : List Nat :=
  let lines := l.splitOn 10
  let headers := (lines.headD []).splitOn 44
  let rows := lines.tail
  s2l "Data Analysis Summary:\n" ++ s2l "Headers: " ++
    (List.intercalate (s2l ", ") headers) ++ s2l "\n" ++
    s2l "Total rows: " ++ natToDigits rows.length ++ s2l "\n\n" ++
    (if 0 < rows.length then s2l "Sample data:\n" ++ rowsTextAux 1 (rows.take 5) else [])

/-- `DocumentAnalysisFramework.preprocessDocument`: collapse and trim
whitespace, then the file-type-specific cleaner. -/
def preprocessDocument (content : List Nat) (ft : FileTypeM) : List Nat :=
  match ft with
  | .pdf => cleanPdfText (trimList (collapseWs content))
  | .md => cleanMarkdown (trimList (collapseWs content))
  | .csv => processCsvContent (trimList (collapseWs content))
  | _ => trimList (collapseWs content)

/-! ## Metadata, structure analysis and section helpers -/

/-- The fixed English stop-word list of `detectLanguage`. -/
def englishWords : List (List Nat) :=
  [s2l "the", s2l "and", s2l "or", s2l "but", s2l "in", s2l "on", s2l "at",
   s2l "to", s2l "for", s2l "of", s2l "with", s2l "by"]

/-- `DocumentAnalysisFramework.detectLanguage`: more than five exact
stop-word hits among the first hundred whitespace-split tokens. -/
def detectLanguage (l : List Nat) : List Nat :=
  if 5 < (((jsSplitWs (jsToLower l)).take 100).filter
      (fun w => englishWords.contains w)).length
  then s2l "en" else s2l "unknown"

/-- Document metadata as carried through the pipeline. -/
structure DocumentMetadataM where
  title : List Nat
  fileType : FileTypeM
  fileSize : Nat
  wordCount : Nat
  language : List Nat
  encoding : List Nat

/-- `DocumentAnalysisFramework.extractMetadata`. -/
def extractMetadata (content : List Nat) (m : DocumentMetadataM) : DocumentMetadataM :=
  { m with
      wordCount := countWords content
      language := detectLanguage content
      encoding := s2l "UTF-8" }

/-- Try `^\s*[-*+]\s+` at a line-start position; on success return the
last consumed code unit (to know whether a fresh line begins) and the
rest. -/
def listTryAt (l : List Nat) : Option (Nat × List Nat) :=
  match l.dropWhile isWs with
  | c :: rest =>
    if c = 45 || c = 42 || c = 43 then
      if (rest.takeWhile isWs).isEmpty then none
      else some ((rest.takeWhile isWs).getLastD 0, rest.drop (rest.takeWhile isWs).length)
    else none
  | [] => none

/-- Count matches of `/^\s*[-*+]\s+/gm`: the pattern is tried at the
start and after each newline, matches are consumed without overlap. -/
def listItemCount : Nat → Bool → List Nat → Nat
  | 0, _, _ => 0
  | _ + 1, _, [] => 0
  | fuel + 1, atStart, c :: rest =>
    if atStart then
      match listTryAt (c :: rest) with
      | some p => 1 + listItemCount fuel (p.1 = 10) p.2
      | none => listItemCount fuel (c = 10) rest
    else listItemCount fuel (c = 10) rest

/-- The structure summary computed (and then discarded) by the
orchestrator; the `sections`/`headings` fields are always empty in the
source and are omitted. -/
structure StructureM where
  paragraphs : Nat
  lists : Nat

/-- `DocumentAnalysisFramework.analyzeStructure`. -/
def analyzeStructure (l : List Nat) : StructureM :=
  { paragraphs := ((l.splitOn 10).filter (fun line => 50 < (trimList line).length)).length
    lists := listItemCount l.length true l }

/-- One report section. -/
structure SectionM where
  title : List Nat
  content : List Nat
  confidence : ℚ
  word_count : Nat
  key_points : List (List Nat)

/-- `word.charAt(0).toUpperCase() + word.slice(1)` (ASCII case fold). -/
def capitalizeWord : List Nat → List Nat
  | [] => []
  | c :: rest => (if 97 ≤ c && c ≤ 122 then c - 32 else c) :: rest

/-- `DocumentAnalysisFramework.formatSectionTitle`: split on
underscores, capitalize, join with spaces. -/
def formatSectionTitle (key : List Nat) : List Nat :=
  List.intercalate [32] ((key.splitOn 95).map capitalizeWord)

/-- `DocumentAnalysisFramework.extractKeyPoints`: sentences longer than
20 characters after trimming, first five, trimmed. -/
def extractKeyPoints (content : List Nat) : List (List Nat) :=
  (((splitBy isSentSep content).filter
    (fun s => 20 < (trimList s).length)).take 5).map trimList

example : formatSectionTitle (s2l "executive_summary") = s2l "Executive Summary" := by
  decide

/-! ## AI analysis and orchestration
(`DocumentAnalysisFramework.performAIAnalysis` / `analyzeDocument`)

The two provider HTTP backends are external services; a run of the
pipeline is modelled against a provider oracle mapping the index of each
outgoing call to either the raw response text or an error message (the
message extracted from a non-2xx response or a network failure).
`Math.random`-based id generation and `Date.now` are likewise passed in
as oracles. -/

/-- A template prompt value: the four fixed prompts are strings, the
optional `custom` entry is a string array (skipped by the
`typeof prompt === 'string'` guard). -/
inductive PromptVal
  | str (s : List Nat)
  | arr (ss : List (List Nat))

/-- Whether a prompt value is a plain string. -/
def PromptVal.isStr : PromptVal → Bool
  | .str _ => true
  | .arr _ => false

/-- The per-request configuration fields consumed by the pipeline. -/
structure AnalysisConfigM where
  prompts : List (List Nat × PromptVal)
  includeVisualization : Bool

/-- One progress callback payload. -/
structure ProgressEvent where
  progress : ℚ
  message : String
  stage : String

/-- `DocumentAnalysisFramework.performAIAnalysis`: walk the template's
prompt entries; for each string-valued prompt emit the sub-progress event
`40 + ((i / n) * 100) * 0.4` (the orchestrator's wrapper applied to the
raw callback value), call the provider, sanitize the response and build
the section. Returns the sections (or the first error), the emitted
events, and the number of provider calls made. -/
def performAIAnalysis (provider : Nat → Except String (List Nat)) (n : Nat) :
    List (List Nat × PromptVal) → Nat → Nat →
      Except String (List (List Nat × SectionM)) × List ProgressEvent × Nat
  | [], _, k => (.ok [], [], k)
  | (_, .arr _) :: rest, i, k => performAIAnalysis provider n rest (i + 1) k
  | (key, .str _) :: rest, i, k =>
    let ev : ProgressEvent :=
      ⟨40 + ((i : ℚ) / (n : ℚ) * 100) * (4/10), "AI analysis in progress...", "ai_analysis"⟩
    match provider k with
    | .error e => (.error e, [ev], k + 1)
    | .ok resp =>
      match performAIAnalysis provider n rest (i + 1) (k + 1) with
      | (.error e, evs, k') => (.error e, ev :: evs, k')
      | (.ok secs, evs, k') =>
        (.ok ((key,
          { title := formatSectionTitle key
            content := sanitizeContent resp
            confidence := (85 : ℚ)/100
            word_count := countWords (sanitizeContent resp)
            key_points := extractKeyPoints (sanitizeContent resp) }) :: secs),
         ev :: evs, k')

/-- One generated visualization. -/
structure VisualizationM where
  vtype : String
  title : List Nat
  labels : List (List Nat)
  seriesLabel : String
  dataPoints : List Nat
  description : List Nat

/-- Entity-type histogram in first-seen order (`reduce` over a plain
object). -/
def entityTypeCounts : List EntityM → List (String × Nat)
  | es => es.foldl (fun acc e => bumpType acc e.etype) []
where
  bumpType : List (String × Nat) → String → List (String × Nat)
    | [], t => [(t, 1)]
    | (k, n) :: rest, t =>
      if k = t then (k, n + 1) :: rest else (k, n) :: bumpType rest t

/-- `DocumentAnalysisFramework.generateVisualizations`. -/
def generateVisualizations (entities : List EntityM) (topics : List TopicM) :
    List VisualizationM :=
  (if 0 < topics.length then
    [{ vtype := "chart", title := s2l "Topic Frequency Analysis",
       labels := topics.map TopicM.topic, seriesLabel := "Frequency",
       dataPoints := topics.map TopicM.frequency,
       description := s2l "Most frequently mentioned topics in the document" }]
   else []) ++
  (if 0 < entities.length then
    [{ vtype := "chart", title := s2l "Entity Type Distribution",
       labels := (entityTypeCounts entities).map (fun p => s2l p.1),
       seriesLabel := "Count",
       dataPoints := (entityTypeCounts entities).map Prod.snd,
       description := s2l "Distribution of different entity types found in the document" }]
   else [])

/-- `DocumentAnalysisFramework.calculateConfidenceScore`: mean of the
section confidences (all set, so the `|| 0.5` default never fires; the
mean of zero sections, `NaN` in JavaScript, is 0 in the rational model —
unreachable in any theorem below). -/
def calculateConfidenceScore (sections : List (List Nat × SectionM)) : ℚ :=
  ((sections.map (fun s => s.2.confidence)).sum) / (sections.length : ℚ)

/-- The assembled analysis result. -/
structure AnalysisResultM where
  id : List Nat
  documentId : List Nat
  configuration : AnalysisConfigM
  metadata : DocumentMetadataM
  sections : List (List Nat × SectionM)
  confidence_score : ℚ
  processing_time : Nat
  word_count : Nat
  readability_score : ℚ
  sentiment_analysis : SentimentM
  key_entities : List EntityM
  topics : List TopicM
  visualizations : List VisualizationM
  created_at : Nat
  updated_at : Nat

/-- The message of the empty-content input error. -/
def emptyMsg : String :=
  "Document content is empty or contains only invalid characters"

/-- `DocumentAnalysisFramework.analyzeDocument`: sanitize, reject empty
content before any provider call, preprocess, run the staged pipeline,
and either assemble the full result or wrap the first error as
`Analysis failed: <cause>`. Returns the outcome, the emitted progress
events, and the number of provider calls. -/
def analyzeDocumentM (content : List Nat) (meta : DocumentMetadataM)
    (cfg : AnalysisConfigM) (provider : Nat → Except String (List Nat))
    (ids : Nat → List Nat) (t0 t1 : Nat) :
    Except String AnalysisResultM × List ProgressEvent × Nat :=
  if trimList (sanitizeContent content) = [] then
    (.error ("Analysis failed: " ++ emptyMsg),
     [⟨5, "Preprocessing document...", "preprocessing"⟩], 0)
  else
    let pre := preprocessDocument (sanitizeContent content) meta.fileType
    let meta2 := extractMetadata pre { meta with title := sanitizeTitle meta.title }
    let _struct := analyzeStructure pre
    match performAIAnalysis provider cfg.prompts.length cfg.prompts 0 0 with
    | (.error e, evs, k) =>
      (.error ("Analysis failed: " ++ e),
       [⟨5, "Preprocessing document...", "preprocessing"⟩,
        ⟨15, "Extracting document metadata...", "metadata"⟩,
        ⟨25, "Analyzing document structure...", "structure"⟩,
        ⟨40, "Performing AI analysis...", "ai_analysis"⟩] ++ evs, k)
    | (.ok secs, evs, k) =>
      (.ok
        { id := ids 0
          documentId := ids 1
          configuration := cfg
          metadata := meta2
          sections := secs
          confidence_score := calculateConfidenceScore secs
          processing_time := t1 - t0
          word_count := countWords pre
          readability_score := calculateReadabilityScore pre
          sentiment_analysis := analyzeSentiment pre
          key_entities := extractEntities pre
          topics := extractTopics pre
          visualizations :=
            if cfg.includeVisualization then
              generateVisualizations (extractEntities pre) (extractTopics pre)
            else []
          created_at := t1
          updated_at := t1 },
       [⟨5, "Preprocessing document...", "preprocessing"⟩,
        ⟨15, "Extracting document metadata...", "metadata"⟩,
        ⟨25, "Analyzing document structure...", "structure"⟩,
        ⟨40, "Performing AI analysis...", "ai_analysis"⟩] ++ evs ++
       [⟨80, "Extracting entities and topics...", "entities"⟩,
        ⟨85, "Analyzing sentiment...", "sentiment"⟩,
        ⟨90, "Generating visualizations...", "visualizations"⟩,
        ⟨95, "Compiling analysis results...", "compilation"⟩,
        ⟨100, "Analysis complete!", "complete"⟩], k)

theorem performAI_ok_keys (provider : Nat → Except String (List Nat)) (n : Nat) :
    ∀ (prompts : List (List Nat × PromptVal)) (i k : Nat)
      (secs : List (List Nat × SectionM)) (evs : List ProgressEvent) (k' : Nat),
      performAIAnalysis provider n prompts i k = (.ok secs, evs, k') →
      secs.map Prod.fst = (prompts.filter (fun p => p.2.isStr)).map Prod.fst := by
  intro prompts
  induction prompts with
  | nil =>
    intro i k secs evs k' h
    simp only [performAIAnalysis, Prod.mk.injEq, Except.ok.injEq] at h
    rw [← h.1]
    rfl
  | cons p rest ih =>
    intro i k secs evs k' h
    cases p with
    | mk key v =>
      cases v with
      | arr ss =>
        simp only [performAIAnalysis] at h
        rw [ih _ _ _ _ _ h]
        simp [List.filter_cons, PromptVal.isStr]
      | str s =>
        simp only [performAIAnalysis] at h
        cases hp : provider k with
        | error e =>
          rw [hp] at h
          simp at h
        | ok resp =>
          rw [hp] at h
          rcases hrec : performAIAnalysis provider n rest (i + 1) (k + 1) with ⟨res, evs2, k2⟩
          rw [hrec] at h
          cases res with
          | error e => simp at h
          | ok secs2 =>
            simp only [Prod.mk.injEq, Except.ok.injEq] at h
            rw [← h.1]
            simp only [List.map_cons, List.filter_cons]
            rw [ih _ _ _ _ _ hrec]
            simp [PromptVal.isStr]

/-- C2: the orchestrator rejects empty-or-all-invalid content before any
provider call with the fixed input-error message; every failure surfaces
as a single error of the form `Analysis failed: <cause>`; and a success
is one fully populated result whose section list carries exactly one
section per string-valued template prompt, in template order. -/
theorem C2_orchestrator (content : List Nat) (meta : DocumentMetadataM)
    (cfg : AnalysisConfigM) (provider : Nat → Except String (List Nat))
    (ids : Nat → List Nat) (t0 t1 : Nat) :
    (trimList (sanitizeContent content) = [] →
      analyzeDocumentM content meta cfg provider ids t0 t1 =
        (.error ("Analysis failed: " ++ emptyMsg),
         [⟨5, "Preprocessing document...", "preprocessing"⟩], 0)) ∧
    (∀ e, (analyzeDocumentM content meta cfg provider ids t0 t1).1 = .error e →
      ∃ c, e = "Analysis failed: " ++ c) ∧
    (∀ r, (analyzeDocumentM content meta cfg provider ids t0 t1).1 = .ok r →
      r.sections.map Prod.fst = (cfg.prompts.filter (fun p => p.2.isStr)).map Prod.fst) := by
  refine ⟨?_, ?_, ?_⟩
  · intro h
    unfold analyzeDocumentM
    rw [if_pos h]
  · intro e he
    unfold analyzeDocumentM at he
    by_cases hemp : trimList (sanitizeContent content) = []
    · rw [if_pos hemp] at he
      simp only [Except.error.injEq] at he
      exact ⟨emptyMsg, he.symm⟩
    · rw [if_neg hemp] at he
      rcases hai : performAIAnalysis provider cfg.prompts.length cfg.prompts 0 0 with
        ⟨res, evs, k⟩
      rw [hai] at he
      cases res with
      | error e' =>
        simp only [Except.error.injEq] at he
        exact ⟨e', he.symm⟩
      | ok secs => simp at he
  · intro r hr
    unfold analyzeDocumentM at hr
    by_cases hemp : trimList (sanitizeContent content) = []
    · rw [if_pos hemp] at hr
      simp at hr
    · rw [if_neg hemp] at hr
      rcases hai : performAIAnalysis provider cfg.prompts.length cfg.prompts 0 0 with
        ⟨res, evs, k⟩
      rw [hai] at hr
      cases res with
      | error e' => simp at hr
      | ok secs =>
        simp only [Except.ok.injEq] at hr
        rw [← hr]
        exact performAI_ok_keys provider cfg.prompts.length cfg.prompts 0 0 secs evs k hai

/-- C2 witness: whitespace-only content is rejected before any provider
call, with zero calls recorded and the exact wrapped message. -/
theorem C2_witness :
    analyzeDocumentM (s2l " ") ⟨[], .txt, 0, 0, [], []⟩ ⟨[], false⟩
        (fun _ => .error "down") (fun _ => []) 0 0 =
      (.error ("Analysis failed: " ++ emptyMsg),
       [⟨5, "Preprocessing document...", "preprocessing"⟩], 0) :=
  (C2_orchestrator (s2l " ") ⟨[], .txt, 0, 0, [], []⟩ ⟨[], false⟩
    (fun _ => .error "down") (fun _ => []) 0 0).1 (by decide)

/-- Division by a natural cast is monotone in the numerator (trivially
when the denominator is zero, since division by zero is zero). -/
theorem divCast_mono {i : Nat} (n : Nat) : (i : ℚ) / (n : ℚ) ≤ ((i : ℚ) + 1) / (n : ℚ) := by
  rw [div_eq_mul_inv, div_eq_mul_inv]
  exact mul_le_mul_of_nonneg_right (by linarith) (inv_nonneg.mpr (by positivity))

/-- Every event emitted inside `performAIAnalysis` carries the
`ai_analysis` stage and a progress value in `[40 + 40·i/n, 80)`, and the
emitted sequence is nondecreasing. -/
theorem performAI_evs (provider : Nat → Except String (List Nat)) (n : Nat) :
    ∀ (prompts : List (List Nat × PromptVal)) (i k : Nat), i + prompts.length ≤ n →
      (∀ ev ∈ (performAIAnalysis provider n prompts i k).2.1,
        ev.stage = "ai_analysis" ∧
        40 + ((i : ℚ) / (n : ℚ) * 100) * (4/10) ≤ ev.progress ∧
        40 ≤ ev.progress ∧ ev.progress < 80) ∧
      List.Chain' (fun a b => a ≤ b)
        ((performAIAnalysis provider n prompts i k).2.1.map ProgressEvent.progress) := by
  intro prompts
  induction prompts with
  | nil =>
    intro i k _
    exact ⟨by simp [performAIAnalysis], by simp [performAIAnalysis]⟩
  | cons p rest ih =>
    intro i k hlen
    have hstep : 40 + ((i : ℚ) / (n : ℚ) * 100) * (4/10) ≤
        40 + (((i + 1 : Nat) : ℚ) / (n : ℚ) * 100) * (4/10) := by
      have := divCast_mono (i := i) n
      push_cast
      push_cast at this
      linarith
    cases p with
    | mk key v =>
      cases v with
      | arr ss =>
        have hlen' : (i + 1) + rest.length ≤ n := by
          simp only [List.length_cons] at hlen
          omega
        have := ih (i + 1) k hlen'
        refine ⟨fun ev hev => ?_, this.2⟩
        obtain ⟨h1, h2, h3, h4⟩ := this.1 ev hev
        exact ⟨h1, le_trans hstep h2, h3, h4⟩
      | str s =>
        have hlen' : (i + 1) + rest.length ≤ n := by
          simp only [List.length_cons] at hlen
          omega
        have hin : i < n := by
          simp only [List.length_cons] at hlen
          omega
        have hn0 : (0 : ℚ) < (n : ℚ) := by
          exact_mod_cast Nat.lt_of_le_of_lt (Nat.zero_le i) hin
        have hfrac : (i : ℚ) / (n : ℚ) < 1 :=
          (div_lt_one hn0).mpr (by exact_mod_cast hin)
        have hnonneg : (0 : ℚ) ≤ (i : ℚ) / (n : ℚ) := by positivity
        have hself : (40 : ℚ) ≤ 40 + ((i : ℚ) / (n : ℚ) * 100) * (4/10) := by linarith
        have hlt : 40 + ((i : ℚ) / (n : ℚ) * 100) * (4/10) < 80 := by linarith
        simp only [performAIAnalysis]
        cases hp : provider k with
        | error e =>
          refine ⟨fun ev hev => ?_, ?_⟩
          · rcases List.mem_singleton.mp hev with rfl
            exact ⟨rfl, le_refl _, hself, hlt⟩
          · exact List.chain'_singleton _
        | ok resp =>
          rcases hrec : performAIAnalysis provider n rest (i + 1) (k + 1) with ⟨res, evs2, k2⟩
          have ihprop := ih (i + 1) (k + 1) hlen'
          rw [hrec] at ihprop
          have evprops : ∀ ev ∈ evs2,
              ev.stage = "ai_analysis" ∧
              40 + ((i : ℚ) / (n : ℚ) * 100) * (4/10) ≤ ev.progress ∧
              40 ≤ ev.progress ∧ ev.progress < 80 := by
            intro ev hev
            obtain ⟨h1, h2, h3, h4⟩ := ihprop.1 ev hev
            exact ⟨h1, le_trans hstep h2, h3, h4⟩
          have evchain : List.Chain' (fun a b => a ≤ b)
              (evs2.map ProgressEvent.progress) := ihprop.2
          have hcons : List.Chain' (fun a b => a ≤ b)
              ((40 + ((i : ℚ) / (n : ℚ) * 100) * (4/10)) ::
                evs2.map ProgressEvent.progress) := by
            rw [List.chain'_cons']
            refine ⟨fun y hy => ?_, evchain⟩
            rw [List.head?_map] at hy
            rcases Option.map_eq_some'.mp (Option.mem_def.mp hy) with ⟨ev, hev, rfl⟩
            exact (evprops ev (List.mem_of_mem_head? hev)).2.1
          cases res with
          | error e =>
            refine ⟨fun ev hev => ?_, ?_⟩
            · rcases List.mem_cons.mp hev with rfl | hev'
              · exact ⟨rfl, le_refl _, hself, hlt⟩
              · exact evprops ev hev'
            · simpa using hcons
          | ok secs2 =>
            refine ⟨fun ev hev => ?_, ?_⟩
            · rcases List.mem_cons.mp hev with rfl | hev'
              · exact ⟨rfl, le_refl _, hself, hlt⟩
              · exact evprops ev hev'
            · simpa using hcons

/-- C10: on every successful run the emitted progress sequence starts at
5, ends at 100, is nondecreasing, stays within [5,100], and every event
of the `ai_analysis` stage (the stage marker at 40 and the per-field
sub-progress values `40 + 0.4·(i/n·100)`) stays strictly below the next
stage's 80. -/
theorem C10_progress (content : List Nat) (meta : DocumentMetadataM)
    (cfg : AnalysisConfigM) (provider : Nat → Except String (List Nat))
    (ids : Nat → List Nat) (t0 t1 : Nat)
    (h : ∃ r, (analyzeDocumentM content meta cfg provider ids t0 t1).1 = Except.ok r) :
    ((analyzeDocumentM content meta cfg provider ids t0 t1).2.1.map
        ProgressEvent.progress).head? = some 5 ∧
    ((analyzeDocumentM content meta cfg provider ids t0 t1).2.1.map
        ProgressEvent.progress).getLast? = some 100 ∧
    List.Chain' (fun a b => a ≤ b)
      ((analyzeDocumentM content meta cfg provider ids t0 t1).2.1.map
        ProgressEvent.progress) ∧
    (∀ ev ∈ (analyzeDocumentM content meta cfg provider ids t0 t1).2.1,
      5 ≤ ev.progress ∧ ev.progress ≤ 100) ∧
    (∀ ev ∈ (analyzeDocumentM content meta cfg provider ids t0 t1).2.1,
      ev.stage = "ai_analysis" → ev.progress < 80) := by
  obtain ⟨r, hr⟩ := h
  unfold analyzeDocumentM at hr ⊢
  by_cases hemp : trimList (sanitizeContent content) = []
  · rw [if_pos hemp] at hr
    simp at hr
  · rw [if_neg hemp] at hr ⊢
    rcases hai : performAIAnalysis provider cfg.prompts.length cfg.prompts 0 0 with
      ⟨res, evs, k⟩
    rw [hai] at hr
    cases res with
    | error e => simp at hr
    | ok secs =>
      have hev := performAI_evs provider cfg.prompts.length cfg.prompts 0 0 (by simp)
      rw [hai] at hev
      obtain ⟨hprops, hchain⟩ := hev
      dsimp only at hprops hchain ⊢
      have hp2 : ∀ ev ∈ evs, 40 ≤ ev.progress ∧ ev.progress < 80 :=
        fun ev h => ⟨(hprops ev h).2.2.1, (hprops ev h).2.2.2⟩
      refine ⟨rfl, ?_, ?_, ?_, ?_⟩
      · rw [List.map_append]
        rw [List.getLast?_append_of_ne_nil _ (by simp)]
        rfl
      · rw [List.map_append, List.map_append, List.chain'_append]
        refine ⟨?_, ?_, ?_⟩
        · rw [List.chain'_append]
          refine ⟨?_, hchain, ?_⟩
          · norm_num [List.chain'_cons, List.chain'_singleton, List.map_cons]
          · intro x hx y hy
            have hx40 : x = 40 := by
              have h40 : (List.map ProgressEvent.progress
                  ([⟨5, "Preprocessing document...", "preprocessing"⟩,
                    ⟨15, "Extracting document metadata...", "metadata"⟩,
                    ⟨25, "Analyzing document structure...", "structure"⟩,
                    ⟨40, "Performing AI analysis...", "ai_analysis"⟩] :
                      List ProgressEvent)).getLast? = some 40 := rfl
              rw [h40] at hx
              simpa [eq_comm] using hx
            subst hx40
            rw [List.head?_map] at hy
            rcases Option.map_eq_some'.mp (Option.mem_def.mp hy) with ⟨ev, hev', rfl⟩
            exact (hp2 ev (List.mem_of_mem_head? hev')).1
        · norm_num [List.chain'_cons, List.chain'_singleton, List.map_cons]
        · intro x hx y hy
          have hy80 : y = 80 := by
            simp only [List.map_cons, List.head?_cons, Option.mem_def,
              Option.some.injEq] at hy
            exact hy.symm
          subst hy80
          cases hevs : evs with
          | nil =>
            subst hevs
            simp only [List.map_nil, List.append_nil] at hx
            have h40 : (List.map ProgressEvent.progress
                ([⟨5, "Preprocessing document...", "preprocessing"⟩,
                  ⟨15, "Extracting document metadata...", "metadata"⟩,
                  ⟨25, "Analyzing document structure...", "structure"⟩,
                  ⟨40, "Performing AI analysis...", "ai_analysis"⟩] :
                    List ProgressEvent)).getLast? = some 40 := rfl
            rw [h40] at hx
            have : x = 40 := by simpa [eq_comm] using hx
            rw [this]
            norm_num
          | cons ev0 evs' =>
            rw [List.getLast?_append_of_ne_nil _ (by rw [hevs]; simp)] at hx
            rw [List.getLast?_map] at hx
            rcases Option.map_eq_some'.mp (Option.mem_def.mp hx) with ⟨ev, hev', rfl⟩
            have hlt := (hp2 ev (List.mem_of_mem_getLast? hev')).2
            linarith
      · intro ev hev
        rcases List.mem_append.mp hev with hAB | hS
        · rcases List.mem_append.mp hAB with hA | hB
          · simp only [List.mem_cons, List.not_mem_nil, or_false] at hA
            rcases hA with rfl | rfl | rfl | rfl <;> exact ⟨by norm_num, by norm_num⟩
          · have h1 := hp2 ev hB
            exact ⟨by linarith [h1.1], by linarith [h1.2]⟩
        · simp only [List.mem_cons, List.not_mem_nil, or_false] at hS
          rcases hS with rfl | rfl | rfl | rfl | rfl <;> exact ⟨by norm_num, by norm_num⟩
      · intro ev hev hst
        rcases List.mem_append.mp hev with hAB | hS
        · rcases List.mem_append.mp hAB with hA | hB
          · simp only [List.mem_cons, List.not_mem_nil, or_false] at hA
            rcases hA with rfl | rfl | rfl | rfl
            · exact absurd hst (by decide)
            · exact absurd hst (by decide)
            · exact absurd hst (by decide)
            · norm_num
          · exact (hp2 ev hB).2
        · simp only [List.mem_cons, List.not_mem_nil, or_false] at hS
          rcases hS with rfl | rfl | rfl | rfl | rfl <;> exact absurd hst (by decide)

/-- C10 witness: a one-prompt successful run against an always-succeeding
provider oracle satisfies the progress properties; here the head of the
emitted progress sequence. -/
theorem C10_witness :
    ((analyzeDocumentM (s2l "hello world") ⟨[], .txt, 0, 0, [], []⟩
        ⟨[(s2l "summary", .str (s2l "p"))], false⟩
        (fun _ => .ok (s2l "fine")) (fun _ => []) 0 0).2.1.map
      ProgressEvent.progress).head? = some 5 :=
  (C10_progress (s2l "hello world") ⟨[], .txt, 0, 0, [], []⟩
    ⟨[(s2l "summary", .str (s2l "p"))], false⟩
    (fun _ => .ok (s2l "fine")) (fun _ => []) 0 0 ⟨_, rfl⟩).1

end Brainiac
